import Mathlib

/-!
Verification development for the `wes` retargetable assembler.

The definitions below are a shallow embedding, in Lean 4, of the Python
sources of the repository:

  - `wes/utils.py` (integer helpers),
  - `wes/lexer.py` (character classification, run splitting, line lexing,
    delimiter tracking),
  - `wes/parser.py` (AST nodes, expression evaluation, the packrat PEG
    parser with left-recursion caching),
  - `wes/pattern.py` (Martelli-Montanari unification over pattern terms),
  - `wes/instruction.py`, `wes/compilers/sap.py`, `wes/compilers/wdc.py`
    (instruction validation, sizing and encoding),
  - `wes/compiler.py` (the two-pass compiler).

Modelling conventions, used consistently below:

  - Python arbitrary-precision integers are `Int`; Python `//` and `%` are
    `Int.fdiv` / `Int.fmod` (floor semantics), and the bitwise operators on
    possibly-negative integers are given by the two-complement functions
    `pyAnd`, `pyOr`, `pyXor`, `pyNot` defined below.
  - Exceptions are explicit: user-facing diagnostics (`Message` in
    `wes/exceptions.py`) become structured error values; internal
    `Exception("invariant")` style crashes and uncaught `ValueError`s
    become a distinct `crash`-style constructor, since the program
    distinguishes rendered diagnostics from aborts.
  - Token position fields (`line_start`, `line_num`, `col`) are omitted:
    they are consumed only when rendering diagnostics, never by parsing
    decisions or code generation, and node equality in `wes/parser.py`
    explicitly ignores the `toks` tuple.
  - Unbounded loops and recursion take an explicit fuel argument; fuel
    exhaustion is modelled as a crash-style outcome and is proved or
    computed away in every statement below.
  - The `Deref` AST node and the bracket alternative of `parse_atom` are
    absent from `src/wes/parser.py` even though `wes/compilers/wdc.py`
    imports `Deref` from it (the file in the snapshot predates the rest);
    these two pieces are modelled from the spec and are marked as such at
    their definitions.
-/

set_option maxRecDepth 20000

/-- Decidable equality of `Except` results (not derived in core). -/
instance {ε α : Type} [DecidableEq ε] [DecidableEq α] :
    DecidableEq (Except ε α) := fun x y =>
  match x, y with
  | .ok a, .ok b => decidable_of_iff (a = b) (by simp)
  | .error e1, .error e2 => decidable_of_iff (e1 = e2) (by simp)
  | .error _, .ok _ => isFalse (by simp)
  | .ok _, .error _ => isFalse (by simp)

namespace Wes

/-! ## Integer helpers (`wes/utils.py` and Python built-in semantics) -/

/-- Halving recursion for `bitLength`, with fuel (`n` itself always
suffices). -/
def bitLengthGo : Nat → Nat → Nat
  | 0, _ => 0
  | f + 1, n => if n = 0 then 0 else bitLengthGo f (n / 2) + 1

/-- Python `int.bit_length()` for a nonnegative argument: the number of
bits needed to represent `n`, with `bit_length 0 = 0`. -/
def bitLength (n : Nat) : Nat := bitLengthGo n n

/-- `wes/utils.py` `byte_length(i) = max(1, (i.bit_length() + 7) // 8)`.
Python `bit_length` of a negative int is the bit length of its absolute
value. -/
def byteLength (i : Int) : Nat := max 1 ((bitLength i.natAbs + 7) / 8)

/-- Python unary `~` on arbitrary integers. -/
def pyNot (x : Int) : Int := -x - 1

/-- Python `&` on arbitrary integers (two-complement semantics). -/
def pyAnd (x y : Int) : Int :=
  if 0 ≤ x then
    if 0 ≤ y then Int.ofNat (Nat.land x.toNat y.toNat)
    else Int.ofNat (Nat.ldiff x.toNat (y.natAbs - 1))
  else
    if 0 ≤ y then Int.ofNat (Nat.ldiff y.toNat (x.natAbs - 1))
    else -(Int.ofNat (Nat.lor (x.natAbs - 1) (y.natAbs - 1))) - 1

/-- Python `|` on arbitrary integers (two-complement semantics). -/
def pyOr (x y : Int) : Int :=
  if 0 ≤ x then
    if 0 ≤ y then Int.ofNat (Nat.lor x.toNat y.toNat)
    else -(Int.ofNat (Nat.ldiff (y.natAbs - 1) x.toNat)) - 1
  else
    if 0 ≤ y then -(Int.ofNat (Nat.ldiff (x.natAbs - 1) y.toNat)) - 1
    else -(Int.ofNat (Nat.land (x.natAbs - 1) (y.natAbs - 1))) - 1

/-- Python `^` on arbitrary integers (two-complement semantics). -/
def pyXor (x y : Int) : Int :=
  if 0 ≤ x then
    if 0 ≤ y then Int.ofNat (Nat.xor x.toNat y.toNat)
    else -(Int.ofNat (Nat.xor x.toNat (y.natAbs - 1))) - 1
  else
    if 0 ≤ y then -(Int.ofNat (Nat.xor (x.natAbs - 1) y.toNat)) - 1
    else Int.ofNat (Nat.xor (x.natAbs - 1) (y.natAbs - 1))

/-- Value of an ASCII digit character in bases up to 36, as Python
`int(s, base)` accepts it (decimal digits, then letters of either case). -/
def digitVal (c : Char) : Option Nat :=
  if 48 ≤ c.toNat ∧ c.toNat ≤ 57 then some (c.toNat - 48)
  else if 97 ≤ c.toNat ∧ c.toNat ≤ 122 then some (c.toNat - 87)
  else if 65 ≤ c.toNat ∧ c.toNat ≤ 90 then some (c.toNat - 55)
  else none

/-- Digit run of Python `int(s, base)` after the first digit: each
underscore must be followed directly by a digit (so no trailing and no
doubled underscores), every digit must be valid for the base. -/
def pyIntGo (base : Nat) : List Char → Nat → Option Nat
  | [], acc => some acc
  | c :: rest, acc =>
    if c = '_' then
      match rest with
      | [] => none
      | d :: rest2 =>
        match digitVal d with
        | some v => if v < base then pyIntGo base rest2 (acc * base + v) else none
        | none => none
    else
      match digitVal c with
      | some v => if v < base then pyIntGo base rest (acc * base + v) else none
      | none => none

/-- Digit part of Python `int(s, base)`: nonempty, must start with a
digit, then a `pyIntGo` run. -/
def pyIntDigits (base : Nat) : List Char → Option Nat
  | [] => none
  | c :: rest =>
    match digitVal c with
    | some v => if v < base then pyIntGo base rest v else none
    | none => none

/-- Python `int(s, base)` for an explicit base in {2, 8, 10, 16} on
strings without sign or surrounding whitespace (all call sites in the
program pass strings matched by `VAL_RE`, which excludes both).  A
matching base prefix such as `0x` is permitted and may be followed by a
single underscore; underscores are otherwise only valid between digits.
`none` models the `ValueError` that Python raises on an invalid literal. -/
def pyInt (cs : List Char) (base : Nat) : Option Nat :=
  match base, cs with
  | 2, '0' :: 'b' :: rest => pyIntTail 2 rest
  | 2, '0' :: 'B' :: rest => pyIntTail 2 rest
  | 8, '0' :: 'o' :: rest => pyIntTail 8 rest
  | 8, '0' :: 'O' :: rest => pyIntTail 8 rest
  | 16, '0' :: 'x' :: rest => pyIntTail 16 rest
  | 16, '0' :: 'X' :: rest => pyIntTail 16 rest
  | b, l => pyIntDigits b l
where
  /-- After a base prefix one optional underscore is allowed before the
  digit run. -/
  pyIntTail (base : Nat) : List Char → Option Nat
    | '_' :: rest => pyIntDigits base rest
    | l => pyIntDigits base l

/-- `wes/utils.py` `str_to_int`: choose the base from the two-character
prefix (`0b`, `0o`, `0x`, default 10), then Python `int(s, base)`. -/
def strToInt (cs : List Char) : Option Nat :=
  match cs with
  | '0' :: 'b' :: _ => pyInt cs 2
  | '0' :: 'o' :: _ => pyInt cs 8
  | '0' :: 'x' :: _ => pyInt cs 16
  | _ => pyInt cs 10

/-- Little-endian byte list of a (nonnegative, in all reachable uses)
integer, `wes/utils.py` `le_bytes` as used by `WdcUnary.validate`: `n`
bytes, least significant first. -/
def leBytes (v : Int) (n : Nat) : List Int :=
  match n with
  | 0 => []
  | m + 1 => pyAnd v 255 :: leBytes (Int.fdiv v 256) m

/-! ## Lexer (`wes/lexer.py`) -/

/-- Python `str.isspace` membership for the characters that can occur in
assembly source. -/
def isPySpace (c : Char) : Bool :=
  c = ' ' ∨ c = '\t' ∨ c = '\n' ∨ c = '\x0b' ∨ c = '\x0c' ∨ c = '\r'

/-- Character classes of `wes/lexer.py` `_char_type`: whitespace, the
joined run characters `* < >`, the disjoined single-character tokens, and
everything else.  The Python function returns `float("nan")` for the
disjoined class so that two adjacent disjoined characters always compare
unequal; `ctDiffers` below reproduces that. -/
inductive CT
  | ws
  | joined
  | disjoined
  | other
deriving DecidableEq, Repr

/-- `wes/lexer.py` `JOINED = "*<>"`. -/
def joinedChars : List Char := ['*', '<', '>']

/-- `wes/lexer.py` `DISJOINED = "-~+/^&|%:,[]()"`. -/
def disjoinedChars : List Char :=
  ['-', '~', '+', '/', '^', '&', '|', '%', ':', ',', '[', ']', '(', ')']

/-- `wes/lexer.py` `_char_type`. -/
def charType (c : Char) : CT :=
  if isPySpace c then .ws
  else if c ∈ joinedChars then .joined
  else if c ∈ disjoinedChars then .disjoined
  else .other

/-- The `curr_type != last_type` comparison of `tokenize`: the disjoined
class is NaN in the source, and NaN is unequal to everything including
itself. -/
def ctDiffers (a b : CT) : Bool :=
  a = .disjoined ∨ b = .disjoined ∨ a ≠ b

/-- Run accumulation loop of `wes/lexer.py` `tokenize`: `run` holds the
current run reversed, `lastC` is the previous character. -/
def tokenizeGo (run : List Char) (lastC : Char) : List Char → List (List Char)
  | [] => [run.reverse]
  | c :: rest =>
    if ctDiffers (charType lastC) (charType c) then
      run.reverse :: tokenizeGo [c] c rest
    else
      tokenizeGo (c :: run) c rest

/-- `wes/lexer.py` `tokenize`: split a line into maximal runs of one
character class (with disjoined characters always alone). -/
def tokenizeLine : List Char → List (List Char)
  | [] => []
  | c :: rest => tokenizeGo [c] c rest

/-- Python `str.strip` on a character list. -/
def stripChars (cs : List Char) : List Char :=
  ((cs.dropWhile isPySpace).reverse.dropWhile isPySpace).reverse

/-- Python `readline` style line splitting: every line keeps its
terminating newline; a final line without a newline is kept as is. -/
def splitLinesKeep : List Char → List (List Char)
  | [] => []
  | cs => splitLinesGo [] cs
where
  splitLinesGo (acc : List Char) : List Char → List (List Char)
    | [] => if acc = [] then [] else [acc.reverse]
    | '\n' :: rest => (acc.reverse ++ ['\n']) :: splitLinesGo [] rest
    | c :: rest => splitLinesGo (c :: acc) rest

/-- Tokens of `wes/lexer.py` with position fields omitted (positions feed
only diagnostic rendering, which is out of scope; parsing decisions and
code generation never read them). -/
inductive Tok
  | text (s : String)
  | newline
  | eof
deriving DecidableEq, Repr

/-- Lexer diagnostics (`Message` raised inside `wes/lexer.py`). -/
inductive LexErr
  | unmatchedClose (s : String)
  | delimMismatch (expected got : String)
  | unmatchedOpen (s : String)
deriving DecidableEq, Repr

/-- `Lexer.DELIM_PAIRS`. -/
def delimPair (s : String) : String :=
  if s = "[" then "]" else ")"

/-- Per-line token loop of `Lexer.__iter__`: skip whitespace runs, stop
at a comment, track the delimiter stack, and emit a `Text` token for every
other run.  Returns the emitted tokens and the updated delimiter stack. -/
def lexParts (delims : List String) :
    List (List Char) → Except LexErr (List Tok × List String)
  | [] => .ok ([], delims)
  | p :: rest =>
    if h : p = [] then lexParts delims rest
    else
      if isPySpace (p.head h) then lexParts delims rest
      else if p.head h = ';' then .ok ([], delims)
      else
        let s : String := ⟨p⟩
        if s = "[" ∨ s = "(" then
          match lexParts (s :: delims) rest with
          | .ok (toks, ds) => .ok (Tok.text s :: toks, ds)
          | .error e => .error e
        else if s = "]" ∨ s = ")" then
          match delims with
          | [] => .error (.unmatchedClose s)
          | d :: ds =>
            if s ≠ delimPair d then .error (.delimMismatch (delimPair d) s)
            else
              match lexParts ds rest with
              | .ok (toks, ds2) => .ok (Tok.text s :: toks, ds2)
              | .error e => .error e
        else
          match lexParts delims rest with
          | .ok (toks, ds) => .ok (Tok.text s :: toks, ds)
          | .error e => .error e

/-- Line loop of `Lexer.__iter__`: skip blank and comment-only lines,
lex each remaining line, emit a semantic `Newline` only when the
delimiter stack is empty, and a single `Eof` at the end (failing there
if an opening delimiter is unmatched). -/
def lexLines (delims : List String) : List (List Char) → Except LexErr (List Tok)
  | [] =>
    match delims with
    | d :: _ => .error (.unmatchedOpen d)
    | [] => .ok [Tok.eof]
  | line :: rest =>
    let stripped := stripChars line
    if stripped = [] ∨ stripped.head? = some ';' then lexLines delims rest
    else
      match lexParts delims (tokenizeLine line) with
      | .error e => .error e
      | .ok (toks, delims2) =>
        let nl := if delims2 = [] then [Tok.newline] else []
        match lexLines delims2 rest with
        | .error e => .error e
        | .ok restToks => .ok (toks ++ nl ++ restToks)

/-- Whole-input lexer: `Lexer.from_str` followed by iterating all
tokens. -/
def lexAll (src : String) : Except LexErr (List Tok) :=
  lexLines [] (splitLinesKeep src.data)

/-! ## AST (`wes/parser.py` node classes)

Node `toks` tuples are omitted (see the conventions above); node equality
in the source ignores them. -/

/-- Expression nodes of `wes/parser.py`.  The `deref` constructor is
modelled from the spec: the snapshot of `wes/parser.py` lacks the `Deref`
class even though `wes/compilers/wdc.py` imports and pattern-matches on
it; per the spec a `Deref` wraps one expression and denotes the bracketed
addressing-mode form. -/
inductive Expr
  | name (n : String)
  | val (v : Int)
  | unExpr (op : String) (x : Expr)
  | binExpr (x : Expr) (op : String) (y : Expr)
  | deref (e : Expr)
deriving DecidableEq, Repr

/-- Statement nodes of `wes/parser.py`.  A bare expression statement
(`File.stmts` may hold `Expr` directly in the source) is wrapped in the
`expr` constructor. -/
inductive Stmt
  | label (n : String)
  | const (n : String) (v : Expr)
  | offset (off : Int) (relative : Option String)
  | op (mnemonic : String) (args : List Expr)
  | expr (e : Expr)
deriving DecidableEq, Repr

/-- A Python dict from names to integers, most recent binding first. -/
abbrev Dict := List (String × Int)

/-- Python dict lookup (`d[k]` / `KeyError`). -/
def dictGet (d : Dict) (k : String) : Option Int :=
  (d.find? (fun p => p.1 = k)).map (fun p => p.2)

/-- Python dict insertion (`d[k] = v`, overwriting). -/
def dictPut (d : Dict) (k : String) (v : Int) : Dict := (k, v) :: d

/-- Errors raised during expression evaluation.  `unbound n` is the
diagnostic Message raised by `Expr.eval` on a name lookup failure;
`pyError` stands for any non-Message exception that evaluation can raise
and that the program never catches (ZeroDivisionError on `/` or `%` by
zero, ValueError on a negative shift count, a float result from `**` with
a negative exponent, and the `Exception("invariant")` raised when a node
kind has no evaluation rule). -/
inductive EvalErr
  | unbound (n : String)
  | pyError
deriving DecidableEq, Repr

/-- `UN_OPS` of `wes/parser.py`: `-` is negation, `~` is bitwise
inversion; any other operator string is unreachable from the parser and
raises. -/
def applyUnOp (op : String) (x : Int) : Except EvalErr Int :=
  if op = "-" then .ok (-x)
  else if op = "~" then .ok (pyNot x)
  else .error .pyError

/-- `BIN_OPS` of `wes/parser.py`, with Python semantics: `/` is floor
division, `%` is floor modulus, shifts require a nonnegative count, and
`**` with a negative exponent leaves the integers (modelled as a crash
since every consumer requires an int). -/
def applyBinOp (op : String) (x y : Int) : Except EvalErr Int :=
  if op = "|" then .ok (pyOr x y)
  else if op = "^" then .ok (pyXor x y)
  else if op = "&" then .ok (pyAnd x y)
  else if op = "<<" then
    if y < 0 then .error .pyError else .ok (x * (2 : Int) ^ y.toNat)
  else if op = ">>" then
    if y < 0 then .error .pyError else .ok (Int.fdiv x ((2 : Int) ^ y.toNat))
  else if op = "+" then .ok (x + y)
  else if op = "-" then .ok (x - y)
  else if op = "*" then .ok (x * y)
  else if op = "/" then
    if y = 0 then .error .pyError else .ok (Int.fdiv x y)
  else if op = "%" then
    if y = 0 then .error .pyError else .ok (Int.fmod x y)
  else if op = "**" then
    if y < 0 then .error .pyError else .ok (x ^ y.toNat)
  else .error .pyError

/-- `Expr.eval` of `wes/parser.py`: values evaluate to themselves, names
are looked up in the scope (raising the unbound-name diagnostic on a
miss), unary and binary nodes apply their operator to the recursively
evaluated children (left child first).  A `Deref` node has no evaluation
rule in the source and falls into the invariant crash. -/
def Expr.eval (scope : Dict) : Expr → Except EvalErr Int
  | .val v => .ok v
  | .name n =>
    match dictGet scope n with
    | some v => .ok v
    | none => .error (.unbound n)
  | .unExpr op x =>
    match x.eval scope with
    | .ok v => applyUnOp op v
    | .error e => .error e
  | .binExpr x op y =>
    match x.eval scope with
    | .ok vx =>
      match y.eval scope with
      | .ok vy => applyBinOp op vx vy
      | .error e => .error e
    | .error e => .error e
  | .deref _ => .error .pyError

/-! ## Parser (`wes/parser.py`)

The parser is a packrat PEG recursive descent over the token list with a
cursor, a memoization cache, soft failures (`Reset`, caught by the
`optional` wrapper and by `reset()` contexts which rewind the cursor) and
hard failures (`Stop`, propagated to the top).  The cache is keyed by
`(cursor, method)`; the parser methods that are cached take no arguments,
so the `args`/`kwargs` components of the source key are omitted. -/

/-- `NAME_RE = ^[a-zA-Z_][a-zA-Z0-9_]*$`. -/
def isNameStart (c : Char) : Bool :=
  (65 ≤ c.toNat ∧ c.toNat ≤ 90) ∨ (97 ≤ c.toNat ∧ c.toNat ≤ 122) ∨ c = '_'

/-- Continuation characters of `NAME_RE`. -/
def isNameChar (c : Char) : Bool :=
  isNameStart c ∨ (48 ≤ c.toNat ∧ c.toNat ≤ 57)

/-- Full-string match of `NAME_RE`. -/
def nameRe (s : String) : Bool :=
  match s.data with
  | [] => false
  | c :: rest => isNameStart c ∧ rest.all isNameChar

/-- ASCII decimal digit. -/
def isDigitC (c : Char) : Bool := 48 ≤ c.toNat ∧ c.toNat ≤ 57

/-- Characters of the `0b` alternative of `VAL_RE`. -/
def isBinC (c : Char) : Bool := c = '0' ∨ c = '1' ∨ c = '_'

/-- Characters of the `0o` alternative of `VAL_RE`. -/
def isOctC (c : Char) : Bool := (48 ≤ c.toNat ∧ c.toNat ≤ 55) ∨ c = '_'

/-- Characters of the decimal alternative of `VAL_RE` (note the source
regex is `[0-9_]+`, which also matches strings of underscores). -/
def isDecC (c : Char) : Bool := isDigitC c ∨ c = '_'

/-- Characters of the `0x` alternative of `VAL_RE`. -/
def isHexC (c : Char) : Bool :=
  isDigitC c ∨ (97 ≤ c.toNat ∧ c.toNat ≤ 102) ∨ (65 ≤ c.toNat ∧ c.toNat ≤ 70) ∨ c = '_'

/-- Full-string match of
`VAL_RE = ^(0b[01_]+|0o[0-7_]+|[0-9_]+|0x[a-fA-F0-9_]+)$`. -/
def valRe (s : String) : Bool :=
  (match s.data with
   | '0' :: 'b' :: rest => !rest.isEmpty && rest.all isBinC
   | _ => false) ||
  (match s.data with
   | '0' :: 'o' :: rest => !rest.isEmpty && rest.all isOctC
   | _ => false) ||
  (!s.data.isEmpty && s.data.all isDecC) ||
  (match s.data with
   | '0' :: 'x' :: rest => !rest.isEmpty && rest.all isHexC
   | _ => false)

/-- `str_to_int` on a `String`. -/
def strToIntS (s : String) : Option Nat := strToInt s.data

/-- Identities of the cached parser methods (`cache_result` on
`parse_arg`, `cache_left_rec` on `parse_factor` and on the six
`make_expr_parser` levels, numbered 0 = `parse_term` up to
5 = `parse_expr`). -/
inductive MId
  | arg
  | factor
  | level (lvl : Nat)
deriving DecidableEq, Repr

/-- The packrat cache: `(cursor, method) ↦ (result, end cursor)`. -/
abbrev Cache := List ((Nat × MId) × (Option Expr × Nat))

/-- Parser state: token cursor plus cache.  The cache is never rolled
back, even when the cursor is reset by a caught soft failure. -/
structure PSt where
  pos : Nat
  cache : Cache
deriving DecidableEq, Repr

/-- Cache lookup. -/
def cacheGet (c : Cache) (k : Nat × MId) : Option (Option Expr × Nat) :=
  (c.find? (fun p => p.1 = k)).map (fun p => p.2)

/-- Cache insertion (overwriting). -/
def cachePut (c : Cache) (k : Nat × MId) (v : Option Expr × Nat) : Cache :=
  (k, v) :: c

/-- Hard parser outcomes: `stop` is a `Stop` diagnostic (message text
omitted), `endOfInput` the uncaught `EndOfTokens`, `valueError` the
uncaught `ValueError` from `str_to_int`, and `fuel` marks exhaustion of
the recursion budget of this embedding (proved unreachable wherever a
statement below depends on it). -/
inductive ErrK
  | stop
  | endOfInput
  | valueError
  | fuel
deriving DecidableEq, Repr

/-- Outcome of one parser method: success with a result and new state, a
soft `Reset` (to be caught by an enclosing reset context, which rewinds
the cursor; the cache in the carried state persists), or a hard error. -/
inductive POut (α : Type)
  | ok (a : α) (st : PSt)
  | rst (st : PSt)
  | err (e : ErrK)
deriving DecidableEq, Repr

/-- `TokenStream.get`. -/
def tsGet (toks : List Tok) (st : PSt) : POut Tok :=
  match toks[st.pos]? with
  | some t => .ok t { st with pos := st.pos + 1 }
  | none => .err .endOfInput

/-- `Parser.expect`: read one token; fail (softly, or hard when the
`error=Stop` variant is used) unless it is a `Text` whose text is among
`alts` (an empty `alts` accepts any `Text`). -/
def expect (toks : List Tok) (st : PSt) (alts : List String) (hard : Bool) :
    POut String :=
  match tsGet toks st with
  | .ok (.text s) st2 =>
    if alts.length > 0 ∧ s ∉ alts then
      if hard then .err .stop else .rst st2
    else .ok s st2
  | .ok _ st2 => if hard then .err .stop else .rst st2
  | .rst st2 => .rst st2
  | .err e => .err e

/-- `Parser.expect_newline`. -/
def expectNewline (toks : List Tok) (st : PSt) (hard : Bool) : POut Unit :=
  match tsGet toks st with
  | .ok .newline st2 => .ok () st2
  | .ok _ st2 => if hard then .err .stop else .rst st2
  | .rst st2 => .rst st2
  | .err e => .err e

/-- `Parser.maybe`: `expect` inside a reset context; a soft failure
rewinds the cursor and yields `none`. -/
def maybeTok (toks : List Tok) (st : PSt) (alts : List String) :
    POut (Option String) :=
  match expect toks st alts false with
  | .ok s st2 => .ok (some s) st2
  | .rst st2 => .ok none { st2 with pos := st.pos }
  | .err e => .err e

/-- The `optional` decorator: run the body inside a reset context; a
soft failure rewinds the cursor to `startPos` and returns `none`. -/
def optRes {α : Type} (startPos : Nat) : POut α → POut (Option α)
  | .ok a st => .ok (some a) st
  | .rst st => .ok none { st with pos := startPos }
  | .err e => .err e

/-- Operator sets of the six `make_expr_parser` levels, in grammar order
`parse_term`, `parse_sum`, `parse_shift`, `parse_and`, `parse_xor`,
`parse_expr`. -/
def levelOps : Nat → List String
  | 0 => ["*", "/", "%"]
  | 1 => ["+", "-"]
  | 2 => ["<<", ">>"]
  | 3 => ["&"]
  | 4 => ["^"]
  | _ => ["|"]

/-- Tags for the mutually recursive expression-parser productions.  The
single interpreter `parseRun` dispatches on them, so the recursion is
structural in the fuel (the packed mutual encoding reduces far too
slowly for computation inside proofs).  `leftLoop` carries the loop
state of `cache_left_rec`. -/
inductive PFn
  | atom
  | atomBody
  | power
  | factorBody
  | factor
  | levelBody (lvl : Nat)
  | rhs (lvl : Nat)
  | level (lvl : Nat)
  | leftRec (mid : MId)
  | leftLoop (mid : MId) (pos0 : Nat) (lastRes : Option Expr) (lastPos : Nat)
  | argBody
  | arg
  | deref
  | derefBody
deriving DecidableEq, Repr

/-- The body production decorated by each cached method identity. -/
def MId.body : MId → PFn
  | .arg => .argBody
  | .factor => .factorBody
  | .level lvl => .levelBody lvl

/-- The expression parser of `wes/parser.py`, one production per step.

  - `atom` is `parse_atom` (`optional` around `atomBody`).  The first
    alternative of the body, `"[" expr "]"` producing a `Deref`, is
    modelled from the spec grammar (`atom := "[" expr "]" | "(" expr ")"
    | NAME | VAL`); the snapshot of `parse_atom` in `src/wes/parser.py`
    lacks it while `wes/compilers/wdc.py` and the spec require it.  The
    paren alternative re-wraps the inner node with extended `toks`,
    which with `toks` omitted is the identity.  The final alternative
    reads one token and classifies it with `VAL_RE` (converting via
    `str_to_int`, whose `ValueError` on underscore-misplaced literals is
    uncaught) and then `NAME_RE`, soft-failing otherwise.
  - `power` is `parse_power`: an atom, optionally followed by `**` and a
    factor (right associative; a missing right operand is a hard
    failure).
  - `factorBody` is the body of `parse_factor`: `-` or `~` followed by a
    factor through the decorated method, else a power; `factor` is
    `cache_left_rec` around it.
  - `levelBody lvl` is the body of one `make_expr_parser` level: inside
    a reset context, call the decorated production itself through the
    cache, then one of the level operators, then the right-hand side,
    building a left-nested `BinExpr`; a missing right operand is a hard
    failure; a soft failure anywhere in the attempt rewinds and falls
    back to the right-hand side alone, as does a `None` from the
    recursive call (the source `if` falls through without resetting).
    `rhs lvl` is `parse_factor` for `parse_term` and the next level down
    otherwise; `level lvl` is `cache_left_rec` around the body.
  - `leftRec mid` is the `cache_left_rec` decorator: answer from the
    cache when the key is present, else seed the key with a failure and
    enter the loop; `leftLoop` iterates the body from the fixed start
    position, accepting each result that ends strictly further than the
    previous iteration, until no progress is made.
  - `argBody` is the body of `parse_arg` (a deref argument, else an
    expression); `arg` is `cache_result` around it (an exception is not
    cached, as in the source).
  - `deref` is `parse_deref` (`optional` around `derefBody`), modelled
    from the spec: a bracketed expression producing a `Deref` node; a
    missing inner expression or closing bracket is a hard failure. -/
def parseRun : PFn → Nat → List Tok → PSt → POut (Option Expr)
  | _, 0, _, _ => .err .fuel
  | pf, f + 1, toks, st =>
    match pf with
    | .atom =>
      (match parseRun .atomBody f toks st with
       | .ok r st2 => .ok r st2
       | .rst st2 => .ok none { st2 with pos := st.pos }
       | .err e => .err e)
    | .atomBody =>
      (match maybeTok toks st ["["] with
       | .ok (some _) st2 =>
         (match parseRun (.level 5) f toks st2 with
          | .ok (some e) st3 =>
            (match expect toks st3 ["]"] true with
             | .ok _ st4 => .ok (some (.deref e)) st4
             | .rst st4 => .rst st4
             | .err e2 => .err e2)
          | .ok none _ => .err .stop
          | .rst st3 => .rst st3
          | .err e2 => .err e2)
       | .ok none st2 =>
         (match maybeTok toks st2 ["("] with
          | .ok (some _) st3 =>
            (match parseRun (.level 5) f toks st3 with
             | .ok (some e) st4 =>
               (match expect toks st4 [")"] true with
                | .ok _ st5 => .ok (some e) st5
                | .rst st5 => .rst st5
                | .err e2 => .err e2)
             | .ok none _ => .err .stop
             | .rst st4 => .rst st4
             | .err e2 => .err e2)
          | .ok none st3 =>
            (match expect toks st3 [] false with
             | .ok s st4 =>
               if valRe s then
                 match strToIntS s with
                 | some n => .ok (some (.val (Int.ofNat n))) st4
                 | none => .err .valueError
               else if nameRe s then .ok (some (.name s)) st4
               else .rst st4
             | .rst st4 => .rst st4
             | .err e2 => .err e2)
          | .rst st3 => .rst st3
          | .err e2 => .err e2)
       | .rst st2 => .rst st2
       | .err e2 => .err e2)
    | .power =>
      (match parseRun .atom f toks st with
       | .ok none st2 => .ok none st2
       | .ok (some x) st2 =>
         (match maybeTok toks st2 ["**"] with
          | .ok (some op) st3 =>
            (match parseRun .factor f toks st3 with
             | .ok (some y) st4 => .ok (some (.binExpr x op y)) st4
             | .ok none _ => .err .stop
             | .rst st4 => .rst st4
             | .err e2 => .err e2)
          | .ok none st3 => .ok (some x) st3
          | .rst st3 => .rst st3
          | .err e2 => .err e2)
       | .rst st2 => .rst st2
       | .err e2 => .err e2)
    | .factorBody =>
      (match maybeTok toks st ["-", "~"] with
       | .ok (some op) st2 =>
         (match parseRun .factor f toks st2 with
          | .ok (some x) st3 => .ok (some (.unExpr op x)) st3
          | .ok none _ => .err .stop
          | .rst st3 => .rst st3
          | .err e2 => .err e2)
       | .ok none st2 => parseRun .power f toks st2
       | .rst st2 => .rst st2
       | .err e2 => .err e2)
    | .factor => parseRun (.leftRec .factor) f toks st
    | .levelBody lvl =>
      (match parseRun (.level lvl) f toks st with
       | .ok (some x) st2 =>
         (match expect toks st2 (levelOps lvl) false with
          | .ok op st3 =>
            (match parseRun (.rhs lvl) f toks st3 with
             | .ok (some y) st4 => .ok (some (.binExpr x op y)) st4
             | .ok none _ => .err .stop
             | .rst st4 => parseRun (.rhs lvl) f toks { st4 with pos := st.pos }
             | .err e2 => .err e2)
          | .rst st3 => parseRun (.rhs lvl) f toks { st3 with pos := st.pos }
          | .err e2 => .err e2)
       | .ok none st2 => parseRun (.rhs lvl) f toks st2
       | .rst st2 => parseRun (.rhs lvl) f toks { st2 with pos := st.pos }
       | .err e2 => .err e2)
    | .rhs lvl =>
      (match lvl with
       | 0 => parseRun .factor f toks st
       | l + 1 => parseRun (.level l) f toks st)
    | .level lvl => parseRun (.leftRec (.level lvl)) f toks st
    | .leftRec mid =>
      let key := (st.pos, mid)
      (match cacheGet st.cache key with
       | some (res, endPos) => .ok res { st with pos := endPos }
       | none =>
         parseRun (.leftLoop mid st.pos none st.pos) f toks
           { pos := st.pos, cache := cachePut st.cache key (none, st.pos) })
    | .leftLoop mid pos0 lastRes lastPos =>
      (match parseRun mid.body f toks { pos := pos0, cache := st.cache } with
       | .ok res st2 =>
         if st2.pos ≤ lastPos then .ok lastRes { st2 with pos := lastPos }
         else
           parseRun (.leftLoop mid pos0 res st2.pos) f toks
             { pos := pos0, cache := cachePut st2.cache (pos0, mid) (res, st2.pos) }
       | .rst st2 => .rst st2
       | .err e2 => .err e2)
    | .argBody =>
      (match parseRun .deref f toks st with
       | .ok (some d) st2 => .ok (some d) st2
       | .ok none st2 => parseRun (.level 5) f toks st2
       | .rst st2 => .rst st2
       | .err e2 => .err e2)
    | .arg =>
      let key := (st.pos, MId.arg)
      (match cacheGet st.cache key with
       | some (res, endPos) => .ok res { st with pos := endPos }
       | none =>
         match parseRun .argBody f toks st with
         | .ok res st2 =>
           .ok res { st2 with cache := cachePut st2.cache key (res, st2.pos) }
         | .rst st2 => .rst st2
         | .err e2 => .err e2)
    | .deref =>
      (match parseRun .derefBody f toks st with
       | .ok r st2 => .ok r st2
       | .rst st2 => .ok none { st2 with pos := st.pos }
       | .err e => .err e)
    | .derefBody =>
      (match expect toks st ["["] false with
       | .ok _ st2 =>
         (match parseRun (.level 5) f toks st2 with
          | .ok (some e) st3 =>
            (match expect toks st3 ["]"] true with
             | .ok _ st4 => .ok (some (.deref e)) st4
             | .rst st4 => .rst st4
             | .err e2 => .err e2)
          | .ok none _ => .err .stop
          | .rst st3 => .rst st3
          | .err e2 => .err e2)
       | .rst st2 => .rst st2
       | .err e2 => .err e2)

/-- `Parser.parse_atom`. -/
def parseAtom (f : Nat) (toks : List Tok) (st : PSt) : POut (Option Expr) :=
  parseRun .atom f toks st

/-- `Parser.parse_factor` (the `cache_left_rec`-decorated method). -/
def parseFactor (f : Nat) (toks : List Tok) (st : PSt) : POut (Option Expr) :=
  parseRun .factor f toks st

/-- One `make_expr_parser` level (0 = `parse_term` … 5 = `parse_expr`). -/
def parseLevel (lvl : Nat) (f : Nat) (toks : List Tok) (st : PSt) :
    POut (Option Expr) :=
  parseRun (.level lvl) f toks st

/-- `Parser.parse_arg` (the `cache_result`-decorated method). -/
def parseArg (f : Nat) (toks : List Tok) (st : PSt) : POut (Option Expr) :=
  parseRun .arg f toks st

/-- `Parser.parse_deref`. -/
def parseDeref (f : Nat) (toks : List Tok) (st : PSt) : POut (Option Expr) :=
  parseRun .deref f toks st

/-- `parse_expr`, the top expression production (`parse_expr =
make_expr_parser("parse_expr", ("|",), parse_xor)`). -/
def parseExpr (f : Nat) (toks : List Tok) (st : PSt) : POut (Option Expr) :=
  parseLevel 5 f toks st

/-- The optional trailing newline consumed by offset and label
statements (`with self.reset(): self.expect_newline()`). -/
def optNewline (toks : List Tok) (st : PSt) : POut Unit :=
  match expectNewline toks st false with
  | .ok _ st2 => .ok () st2
  | .rst st2 => .ok () { st2 with pos := st.pos }
  | .err e => .err e

/-- Body of `Parser.parse_const`: a name, `=`, an expression (hard
failure when missing, as is an invalid name), a newline. -/
def parseConstBody (f : Nat) (toks : List Tok) (st : PSt) : POut Stmt :=
  match expect toks st [] false with
  | .ok nameT st2 =>
    (match expect toks st2 ["="] false with
     | .ok _ st3 =>
       if ¬nameRe nameT then .err .stop
       else
         (match parseExpr f toks st3 with
          | .ok (some v) st4 =>
            (match expectNewline toks st4 false with
             | .ok _ st5 => .ok (.const nameT v) st5
             | .rst st5 => .rst st5
             | .err e => .err e)
          | .ok none _ => .err .stop
          | .rst st4 => .rst st4
          | .err e => .err e)
     | .rst st3 => .rst st3
     | .err e => .err e)
  | .rst st2 => .rst st2
  | .err e => .err e

/-- `Parser.parse_const` = `optional` around its body. -/
def parseConst (f : Nat) (toks : List Tok) (st : PSt) : POut (Option Stmt) :=
  optRes st.pos (parseConstBody f toks st)

/-- Body of `Parser.parse_relative`: `+` or `-`, a value token, `:`;
an invalid offset literal is a hard failure; then an optional newline.
The `str_to_int` conversion can raise an uncaught `ValueError` on a
literal that `VAL_RE` accepts but Python rejects. -/
def parseRelativeBody (toks : List Tok) (st : PSt) : POut Stmt :=
  match expect toks st ["+", "-"] false with
  | .ok rel st2 =>
    (match expect toks st2 [] false with
     | .ok valT st3 =>
       (match expect toks st3 [":"] false with
        | .ok _ st4 =>
          if ¬valRe valT then .err .stop
          else
            (match optNewline toks st4 with
             | .ok _ st5 =>
               (match strToIntS valT with
                | some n => .ok (.offset (Int.ofNat n) (some rel)) st5
                | none => .err .valueError)
             | .rst st5 => .rst st5
             | .err e => .err e)
        | .rst st4 => .rst st4
        | .err e => .err e)
     | .rst st3 => .rst st3
     | .err e => .err e)
  | .rst st2 => .rst st2
  | .err e => .err e

/-- `Parser.parse_relative` = `optional` around its body. -/
def parseRelative (toks : List Tok) (st : PSt) : POut (Option Stmt) :=
  optRes st.pos (parseRelativeBody toks st)

/-- Body of `Parser.parse_absolute`: a value token and `:`; an invalid
offset literal soft-fails (`Reset`, unlike the relative form); then an
optional newline. -/
def parseAbsoluteBody (toks : List Tok) (st : PSt) : POut Stmt :=
  match expect toks st [] false with
  | .ok valT st2 =>
    (match expect toks st2 [":"] false with
     | .ok _ st3 =>
       if ¬valRe valT then .rst st3
       else
         (match optNewline toks st3 with
          | .ok _ st4 =>
            (match strToIntS valT with
             | some n => .ok (.offset (Int.ofNat n) none) st4
             | none => .err .valueError)
          | .rst st4 => .rst st4
          | .err e => .err e)
     | .rst st3 => .rst st3
     | .err e => .err e)
  | .rst st2 => .rst st2
  | .err e => .err e

/-- `Parser.parse_absolute` = `optional` around its body. -/
def parseAbsolute (toks : List Tok) (st : PSt) : POut (Option Stmt) :=
  optRes st.pos (parseAbsoluteBody toks st)

/-- `Parser.parse_offset`: relative form first, else absolute. -/
def parseOffset (toks : List Tok) (st : PSt) : POut (Option Stmt) :=
  match parseRelative toks st with
  | .ok (some o) st2 => .ok (some o) st2
  | .ok none st2 => parseAbsolute toks st2
  | .rst st2 => .rst st2
  | .err e => .err e

/-- Body of `Parser.parse_label`: a name and `:`; an invalid name is a
hard failure; then an optional newline. -/
def parseLabelBody (toks : List Tok) (st : PSt) : POut Stmt :=
  match expect toks st [] false with
  | .ok nameT st2 =>
    (match expect toks st2 [":"] false with
     | .ok _ st3 =>
       if ¬nameRe nameT then .err .stop
       else
         (match optNewline toks st3 with
          | .ok _ st4 => .ok (.label nameT) st4
          | .rst st4 => .rst st4
          | .err e => .err e)
     | .rst st3 => .rst st3
     | .err e => .err e)
  | .rst st2 => .rst st2
  | .err e => .err e

/-- `Parser.parse_label` = `optional` around its body. -/
def parseLabel (toks : List Tok) (st : PSt) : POut (Option Stmt) :=
  optRes st.pos (parseLabelBody toks st)

/-- Body of `Parser.parse_nullary`: an expression followed by a newline.
As in the source, the body returns the (possibly `None`) expression after
consuming the newline. -/
def parseNullaryBody (f : Nat) (toks : List Tok) (st : PSt) : POut (Option Expr) :=
  match parseExpr f toks st with
  | .ok e st2 =>
    (match expectNewline toks st2 false with
     | .ok _ st3 => .ok e st3
     | .rst st3 => .rst st3
     | .err e2 => .err e2)
  | .rst st2 => .rst st2
  | .err e2 => .err e2

/-- `Parser.parse_nullary` = `optional` around its body, with the two
layers of optionality collapsed as by Python truthiness. -/
def parseNullary (f : Nat) (toks : List Tok) (st : PSt) : POut (Option Expr) :=
  match parseNullaryBody f toks st with
  | .ok e st2 => .ok e st2
  | .rst st2 => .ok none { st2 with pos := st.pos }
  | .err e2 => .err e2

/-- Body of `Parser.parse_unary`: a mnemonic token (soft failure when not
a valid name), one argument (soft failure when missing), a newline. -/
def parseUnaryBody (f : Nat) (toks : List Tok) (st : PSt) : POut Stmt :=
  match expect toks st [] false with
  | .ok mn st2 =>
    if ¬nameRe mn then .rst st2
    else
      (match parseArg f toks st2 with
       | .ok (some arg) st3 =>
         (match expectNewline toks st3 false with
          | .ok _ st4 => .ok (.op mn [arg]) st4
          | .rst st4 => .rst st4
          | .err e => .err e)
       | .ok none st3 => .rst st3
       | .rst st3 => .rst st3
       | .err e => .err e)
  | .rst st2 => .rst st2
  | .err e => .err e

/-- `Parser.parse_unary` = `optional` around its body. -/
def parseUnary (f : Nat) (toks : List Tok) (st : PSt) : POut (Option Stmt) :=
  optRes st.pos (parseUnaryBody f toks st)

/-- Body of `Parser.parse_binary`: a mnemonic and first argument as in
the unary form, then a comma (hard failure when missing), a second
argument (hard failure when missing), and a newline (hard failure). -/
def parseBinaryBody (f : Nat) (toks : List Tok) (st : PSt) : POut Stmt :=
  match expect toks st [] false with
  | .ok mn st2 =>
    if ¬nameRe mn then .rst st2
    else
      (match parseArg f toks st2 with
       | .ok (some arg1) st3 =>
         (match expect toks st3 [","] true with
          | .ok _ st4 =>
            (match parseArg f toks st4 with
             | .ok (some arg2) st5 =>
               (match expectNewline toks st5 true with
                | .ok _ st6 => .ok (.op mn [arg1, arg2]) st6
                | .rst st6 => .rst st6
                | .err e => .err e)
             | .ok none _ => .err .stop
             | .rst st5 => .rst st5
             | .err e => .err e)
          | .rst st4 => .rst st4
          | .err e => .err e)
       | .ok none st3 => .rst st3
       | .rst st3 => .rst st3
       | .err e => .err e)
  | .rst st2 => .rst st2
  | .err e => .err e

/-- `Parser.parse_binary` = `optional` around its body. -/
def parseBinary (f : Nat) (toks : List Tok) (st : PSt) : POut (Option Stmt) :=
  optRes st.pos (parseBinaryBody f toks st)

/-- `Parser.parse_inst`: nullary (a bare expression statement), else
unary, else binary. -/
def parseInst (f : Nat) (toks : List Tok) (st : PSt) : POut (Option Stmt) :=
  match parseNullary f toks st with
  | .ok (some e) st2 => .ok (some (.expr e)) st2
  | .ok none st2 =>
    (match parseUnary f toks st2 with
     | .ok (some o) st3 => .ok (some o) st3
     | .ok none st3 => parseBinary f toks st3
     | .rst st3 => .rst st3
     | .err e => .err e)
  | .rst st2 => .rst st2
  | .err e => .err e

/-- `Parser.parse_stmt`: constant, offset, label, else instruction. -/
def parseStmt (f : Nat) (toks : List Tok) (st : PSt) : POut (Option Stmt) :=
  match parseConst f toks st with
  | .ok (some c) st2 => .ok (some c) st2
  | .ok none st2 =>
    (match parseOffset toks st2 with
     | .ok (some o) st3 => .ok (some o) st3
     | .ok none st3 =>
       (match parseLabel toks st3 with
        | .ok (some l) st4 => .ok (some l) st4
        | .ok none st4 => parseInst f toks st4
        | .rst st4 => .rst st4
        | .err e => .err e)
     | .rst st3 => .rst st3
     | .err e => .err e)
  | .rst st2 => .rst st2
  | .err e => .err e

/-- The statement loop of `Parser.parse_file`, with its own fuel. -/
def parseFileGo (f : Nat) (toks : List Tok) (st : PSt) (acc : List Stmt) :
    POut (List Stmt) :=
  match f with
  | 0 => .err .fuel
  | f + 1 =>
    match parseStmt f toks st with
    | .ok (some s) st2 => parseFileGo f toks st2 (acc ++ [s])
    | .ok none st2 => .ok acc st2
    | .rst st2 => .rst st2
    | .err e => .err e

/-- `Parser.parse_file`: parse statements until none matches, then
require the next token to be `Eof` (otherwise the recorded soft failure
is re-raised as a hard one). -/
def parseFile (f : Nat) (toks : List Tok) : Except ErrK (List Stmt) :=
  match parseFileGo f toks { pos := 0, cache := [] } [] with
  | .ok stmts st =>
    (match tsGet toks st with
     | .ok .eof _ => .ok stmts
     | .ok _ _ => .error .stop
     | .rst _ => .error .stop
     | .err e => .error e)
  | .rst _ => .error .stop
  | .err e => .error e

/-- Fuel used for all concrete parses below; any value at least the
token count times the recursion depth of the grammar suffices, and the
statements that depend on fuel never appeal to its exhaustion. -/
def pFuel : Nat := 500

/-- `Parser.from_str(...).parse_file()`: lex, then parse. -/
inductive FrontErr
  | lex (e : LexErr)
  | parse (e : ErrK)
deriving DecidableEq, Repr

/-- Parse a whole source file into statements. -/
def parseSrc (src : String) : Except FrontErr (List Stmt) :=
  match lexAll src with
  | .error e => .error (.lex e)
  | .ok toks =>
    match parseFile (pFuel + toks.length * 40) toks with
    | .ok stmts => .ok stmts
    | .error e => .error (.parse e)

/-! ## Pattern / unification engine (`wes/pattern.py`)

Terms are AST expression nodes (which inherit the pattern protocol in the
source), pattern variables, and opaque concrete leaves (the operator and
name strings and literal integers that appear as pattern parameters).
Each AST node constructor carries its parameter tuple; `Name("x")` has the
string parameter `"x"`, so it is `PTerm.name (.pstr "x")` here. -/

/-- Pattern terms: `Var`, concrete string and integer leaves, and the
five expression pattern classes with their parameters. -/
inductive PTerm
  | var (n : String)
  | pstr (s : String)
  | pint (v : Int)
  | name (a : PTerm)
  | val (a : PTerm)
  | unExpr (a b : PTerm)
  | binExpr (a b c : PTerm)
  | deref (a : PTerm)
deriving DecidableEq, Repr

/-- `isinstance(t, Var)`. -/
def PTerm.isVar : PTerm → Bool
  | .var _ => true
  | _ => false

/-- `isinstance(t, Pattern)` (the AST node classes all inherit
`Pattern`; variables and the opaque leaves do not). -/
def PTerm.isPat : PTerm → Bool
  | .name _ => true
  | .val _ => true
  | .unExpr _ _ => true
  | .binExpr _ _ _ => true
  | .deref _ => true
  | _ => false

/-- The decompose rule: when both sides are patterns of the same type,
pair up their parameters; `none` is the type-mismatch conflict. -/
def decomposePair : PTerm → PTerm → Option (List (PTerm × PTerm))
  | .name a, .name b => some [(a, b)]
  | .val a, .val b => some [(a, b)]
  | .unExpr a b, .unExpr c d => some [(a, c), (b, d)]
  | .binExpr a b c, .binExpr d e g => some [(a, d), (b, e), (c, g)]
  | .deref a, .deref b => some [(a, b)]
  | _, _ => none

/-- `occurs_check(v, term)` on a single term: `v` equals the term or
occurs among the parameters of a pattern. -/
def occursT (v : PTerm) : PTerm → Bool
  | .var n => v = .var n
  | .pstr s => v = .pstr s
  | .pint i => v = .pint i
  | .name a => v = .name a || occursT v a
  | .val a => v = .val a || occursT v a
  | .unExpr a b => v = .unExpr a b || occursT v a || occursT v b
  | .binExpr a b c => v = .binExpr a b c || occursT v a || occursT v b || occursT v c
  | .deref a => v = .deref a || occursT v a

/-- `occurs_check(v, equations)`: the deque of pairs is traversed
elementwise. -/
def occursEqs (v : PTerm) (eqs : List (PTerm × PTerm)) : Bool :=
  eqs.any (fun p => occursT v p.1 || occursT v p.2)

/-- `apply_sub(v, x, term)`: substitute `x` for the variable `v`. -/
def applySubT (v x : PTerm) : PTerm → PTerm
  | .var n => if v = .var n then x else .var n
  | .pstr s => .pstr s
  | .pint i => .pint i
  | .name a => .name (applySubT v x a)
  | .val a => .val (applySubT v x a)
  | .unExpr a b => .unExpr (applySubT v x a) (applySubT v x b)
  | .binExpr a b c => .binExpr (applySubT v x a) (applySubT v x b) (applySubT v x c)
  | .deref a => .deref (applySubT v x a)

/-- `apply_sub` over the equation deque. -/
def applySubEqs (v x : PTerm) (eqs : List (PTerm × PTerm)) :
    List (PTerm × PTerm) :=
  eqs.map (fun p => (applySubT v x p.1, applySubT v x p.2))

/-- The Martelli-Montanari loop of `wes/pattern.py` `unify`: one rule per
iteration on the front equation, a miss counter for deferred
variable-to-term equations, exit when the counter reaches the queue
length.  The variables in this program carry no predicate, so the
predicate check of the eliminate rule is omitted.  Outer `none` is fuel
exhaustion; `some none` is a `PatternError`; `some (some eqs)` returns
the remaining equations (the substitution dict). -/
def unifyLoop : Nat → List (PTerm × PTerm) → Nat →
    Option (Option (List (PTerm × PTerm)))
  | 0, _, _ => none
  | f + 1, eqs, misses =>
    if eqs.length ≤ misses then some (some eqs)
    else
      match eqs with
      | [] => some (some [])
      | (x, y) :: rest =>
        if x = y then unifyLoop f rest 0
        else if x.isPat ∧ y.isPat then
          match decomposePair x y with
          | some pairs => unifyLoop f (rest ++ pairs) 0
          | none => some none
        else if ¬x.isVar ∧ ¬y.isVar then some none
        else if ¬x.isVar ∧ y.isVar then unifyLoop f (rest ++ [(y, x)]) 0
        else if occursT x y then some none
        else if occursEqs x rest then
          unifyLoop f (applySubEqs x y rest ++ [(x, y)]) 0
        else unifyLoop f (rest ++ [(x, y)]) (misses + 1)

/-- Fuel for concrete unification runs.  Every run performed by the
format matcher on a well-formed argument finishes far below it (the
theorems below compute the exact traces). -/
def uFuel : Nat := 64

/-- `wes/pattern.py` `unify(lhs, rhs)` with the standard fuel. -/
def unify (a b : PTerm) : Option (Option (List (PTerm × PTerm))) :=
  unifyLoop uFuel [(a, b)] 0

/-- Lookup in `dict(equations)`: later pairs overwrite earlier ones, so
the last binding for the key wins. -/
def subsGet (eqs : List (PTerm × PTerm)) (k : PTerm) : Option PTerm :=
  (eqs.reverse.find? (fun p => p.1 = k)).map (fun p => p.2)

/-- Embed an AST expression as a ground pattern term (the AST classes
inherit the pattern protocol in the source, so this is the identity
there). -/
def exprToTerm : Expr → PTerm
  | .name n => .name (.pstr n)
  | .val v => .val (.pint v)
  | .unExpr op x => .unExpr (.pstr op) (exprToTerm x)
  | .binExpr x op y => .binExpr (exprToTerm x) (.pstr op) (exprToTerm y)
  | .deref e => .deref (exprToTerm e)

/-- Partial inverse of `exprToTerm` (total on its image). -/
def termToExpr : PTerm → Option Expr
  | .name (.pstr n) => some (.name n)
  | .val (.pint v) => some (.val v)
  | .unExpr (.pstr op) x =>
    (termToExpr x).map (fun e => .unExpr op e)
  | .binExpr x (.pstr op) y =>
    match termToExpr x, termToExpr y with
    | some ex, some ey => some (.binExpr ex op ey)
    | _, _ => none
  | .deref x => (termToExpr x).map (fun e => .deref e)
  | _ => none

/-! ## Addressing-mode matcher (`wes/compilers/wdc.py` `Format`) -/

/-- The seven addressing-mode formats, in the declaration order of the
`Format` enum. -/
inductive Fmt
  | idxInd
  | ind
  | indY
  | idxX
  | idxY
  | dir
  | imm
deriving DecidableEq, Repr

/-- The template pattern of each format, with `T = Var("T")`. -/
def Fmt.pattern : Fmt → PTerm
  | .idxInd => .deref (.deref (.binExpr (.var "T") (.pstr "+") (.name (.pstr "x"))))
  | .ind => .deref (.deref (.var "T"))
  | .indY => .deref (.binExpr (.deref (.var "T")) (.pstr "+") (.name (.pstr "y")))
  | .idxX => .deref (.binExpr (.var "T") (.pstr "+") (.name (.pstr "x")))
  | .idxY => .deref (.binExpr (.var "T") (.pstr "+") (.name (.pstr "y")))
  | .dir => .deref (.var "T")
  | .imm => .var "T"

/-- Enum iteration order of `for fmt in Format`. -/
def fmtOrder : List Fmt := [.idxInd, .ind, .indY, .idxX, .idxY, .dir, .imm]

/-- The loop of `Format.match`: unify the argument against each template
in declaration order; a `PatternError` tries the next; on success return
the format and `subs[T]`.  `none` covers the three abort modes that the
theorems below prove unreachable for well-formed arguments: fuel
exhaustion, a missing `T` binding (`KeyError`), and no template matching
(the invariant crash after the loop). -/
def formatMatchGo (arg : PTerm) : List Fmt → Option (Fmt × PTerm)
  | [] => none
  | fmt :: rest =>
    match unify arg fmt.pattern with
    | some (some eqs) =>
      (match subsGet eqs (.var "T") with
       | some t => some (fmt, t)
       | none => none)
    | some none => formatMatchGo arg rest
    | none => none

/-- `Format.match(arg)`. -/
def formatMatch (arg : PTerm) : Option (Fmt × PTerm) :=
  formatMatchGo arg fmtOrder

/-! ## Instructions (`wes/instruction.py`, `wes/compilers/sap.py`,
`wes/compilers/wdc.py`) -/

/-- Compiler diagnostics: each constructor is one `Message` raised by the
compiler or an instruction, carrying the data interpolated into the
source message text. -/
inductive Diag
  | unrecognized (mn : String)
  | reservedLabel (n : String)
  | redefLabel (n : String)
  | labelCollidesConst (n : String)
  | reservedConst (n : String)
  | redefConst (n : String)
  | offsetNoPad
  | offsetNotDivisor (mn : String)
  | offsetOversized (target : Int)
  | offsetBackwards (target : Int)
  | tooLarge
  | takesNoArg (mn : String)
  | takesOneArg (mn : String)
  | valueTooLarge (v : Int)
  | unboundName (n : String)
  | sapArgTooLarge (v : Int)
  | wordTooBig (v : Int)
  | wdcTwoBytes (v : Int)
  | wdcNoMode (mn : String) (fmt : Fmt) (len : Nat)
  | relOneByte (v : Int)
  | expectsArg (mn : String)
  | expectsOneArg (mn : String)
deriving DecidableEq, Repr

/-- Compiler outcomes that abort a run: a rendered diagnostic
(`Message`), or an internal crash (an `Exception("invariant")`, an
uncaught `KeyError`/`AttributeError`, or fuel exhaustion of this
embedding). -/
inductive CErr
  | diag (d : Diag)
  | crash
deriving DecidableEq, Repr

/-- Lift an evaluation error: the unbound-name `Message` is a
diagnostic, everything else an uncaught exception. -/
def evToC (e : EvalErr) : CErr :=
  match e with
  | .unbound n => .diag (.unboundName n)
  | .pyError => .crash

/-- The per-mnemonic behaviour carried by each entry of a target
`instructions` table: a `Constant` with its fixed output byte, a SAP
`Unary` with its 4-bit opcode, `Word`, a `WdcUnary` with its
`(format, operand byte length) ↦ opcode` table (a `none` key is the
no-argument row), or a `RelativeUnary` with its opcode. -/
inductive InstKind
  | constK (output : Int)
  | sapUK (code : Int)
  | wordK
  | wdcUK (opCodes : List (Option (Fmt × Nat) × Int))
  | relUK (opCode : Int)
deriving DecidableEq, Repr

/-- A target: `max_addr`, `max_val`, and the `instructions` mapping. -/
structure Target where
  maxAddr : Int
  maxVal : Int
  instrs : List (String × InstKind)
deriving Repr

/-- Mnemonic lookup in the `instructions` mapping. -/
def instrGet (t : Target) (mn : String) : Option InstKind :=
  ((t.instrs.find? (fun p => p.1 = mn)).map (fun p => p.2))

/-- Opcode table lookup of `WdcUnary`. -/
def opCodesGet (ocs : List (Option (Fmt × Nat) × Int)) (k : Option (Fmt × Nat)) :
    Option Int :=
  ((ocs.find? (fun p => p.1 = k)).map (fun p => p.2))

/-- A constructed (validated) instruction object: the data each
`Instruction` subclass holds after `validate` has succeeded. -/
inductive Inst
  | value (v : Int)
  | constantI (mn : String) (output : Int)
  | sapUnary (mn : String) (code : Int) (arg : Expr)
  | word (arg : Expr)
  | wdcUnary (mn : String) (opCode : Int) (lb : List Int) (sz : Nat)
  | relUnary (mn : String) (opCode : Int) (evaled : Int)
deriving DecidableEq, Repr

/-- `Instruction.size` per subclass: `Value` and `Constant` use
`byte_length` of their value, a SAP unary is one byte, `word` two,
`WdcUnary` stores its size at validation, `RelativeUnary` is two. -/
def Inst.size : Inst → Nat
  | .value v => byteLength v
  | .constantI _ output => byteLength output
  | .sapUnary _ _ _ => 1
  | .word _ => 2
  | .wdcUnary _ _ _ sz => sz
  | .relUnary _ _ _ => 2

/-- `isinstance(inst, Operation)`: everything except a bare `Value`. -/
def Inst.isOperation : Inst → Bool
  | .value _ => false
  | _ => true

/-- The mnemonic of an operation (used in the padding diagnostic). -/
def Inst.mnem : Inst → String
  | .value _ => ""
  | .constantI mn _ => mn
  | .sapUnary mn _ _ => mn
  | .word _ => "word"
  | .wdcUnary mn _ _ _ => mn
  | .relUnary mn _ _ => mn

/-- The statement shapes that construct instructions after the rewrite
step of `scan`/`__iter__`: an `Op`, or a `Val` (from a bare expression
or a constant reference). -/
inductive OpOrVal
  | opS (mn : String) (args : List Expr)
  | valS (v : Int)
deriving DecidableEq, Repr

/-- `Compiler.get_instruction` followed by `Instruction.__init__`, which
calls `validate`: construct the instruction for a statement, running the
subclass validation.  `WdcUnary.validate` needs the compiler scope since
it evaluates its operand. -/
def getInstruction (t : Target) (scope : Dict) : OpOrVal → Except CErr Inst
  | .valS v =>
    -- Value.validate: evaluated result too large when above max_val
    if v > t.maxVal then .error (.diag (.valueTooLarge v)) else .ok (.value v)
  | .opS mn args =>
    match instrGet t mn with
    | none => .error (.diag (.unrecognized mn))
    | some (.constK output) =>
      -- Nullary.validate
      match args with
      | [] => .ok (.constantI mn output)
      | _ => .error (.diag (.takesNoArg mn))
    | some (.sapUK code) =>
      -- Unary.validate
      match args with
      | [a] => .ok (.sapUnary mn code a)
      | _ => .error (.diag (.takesOneArg mn))
    | some .wordK =>
      match args with
      | [a] => .ok (.word a)
      | _ => .error (.diag (.takesOneArg mn))
    | some (.wdcUK opCodes) =>
      -- WdcUnary.validate
      (match args with
       | [] =>
         (match opCodesGet opCodes none with
          | some oc => .ok (.wdcUnary mn oc [] 1)
          | none => .error (.diag (.expectsArg mn)))
       | [a] =>
         (match formatMatch (exprToTerm a) with
          | none => .error .crash
          | some (fmt, opTerm) =>
            match termToExpr opTerm with
            | none => .error .crash
            | some operand =>
              match operand.eval scope with
              | .error e => .error (evToC e)
              | .ok evaled =>
                let bl := byteLength evaled
                if bl > 2 then .error (.diag (.wdcTwoBytes evaled))
                else
                  match opCodesGet opCodes (some (fmt, bl)) with
                  | none => .error (.diag (.wdcNoMode mn fmt bl))
                  | some oc => .ok (.wdcUnary mn oc (leBytes evaled bl) (bl + 1)))
       | _ => .error (.diag (.expectsOneArg mn)))
    | some (.relUK opCode) =>
      -- RelativeUnary.validate
      (match args with
       | [] => .error (.diag (.expectsArg mn))
       | [a] =>
         (match a.eval scope with
          | .error e => .error (evToC e)
          | .ok evaled =>
            if byteLength evaled > 1 then .error (.diag (.relOneByte evaled))
            else .ok (.relUnary mn opCode evaled))
       | _ => .error (.diag (.expectsOneArg mn)))

/-- `Instruction.encode` per subclass.  A SAP unary evaluates its operand
against the compiler scope and fails above `max_addr`; `Word` evaluates
against the label mapping only and fails above `0xFFFF`; both multi-byte
emitters are little-endian. -/
def encodeInst (t : Target) (labels scope : Dict) : Inst → Except CErr (List Int)
  | .value v => .ok [v]
  | .constantI _ output => .ok [output]
  | .sapUnary _ code a =>
    (match a.eval scope with
     | .error e => .error (evToC e)
     | .ok evaled =>
       if evaled > t.maxAddr then .error (.diag (.sapArgTooLarge evaled))
       else .ok [code * 16 + evaled])
  | .word a =>
    (match a.eval labels with
     | .error e => .error (evToC e)
     | .ok evaled =>
       if evaled > 65535 then .error (.diag (.wordTooBig evaled))
       else .ok [pyAnd evaled 255, pyAnd (Int.fdiv evaled 256) 255])
  | .wdcUnary _ opCode lb _ => .ok (opCode :: lb)
  | .relUnary _ opCode evaled => .ok [opCode, evaled]

/-! ## The two-pass compiler (`wes/compiler.py`) -/

/-- Compiler state threaded through pass 1: the label and constant
mappings, the combined evaluation scope, the location counter, and the
last constructed instruction (used to size offset padding). -/
structure CSt where
  labels : Dict
  consts : Dict
  scope : Dict
  loc : Int
  lastInst : Option Inst
deriving DecidableEq, Repr

/-- First phase of `resolve_consts`: collect constant statements in
order, rejecting reserved and duplicate names. -/
def collectConsts (t : Target) : List Stmt → List (String × Expr) →
    Except CErr (List (String × Expr))
  | [], acc => .ok acc
  | .const n v :: rest, acc =>
    if (instrGet t n).isSome then .error (.diag (.reservedConst n))
    else if acc.any (fun p => p.1 = n) then .error (.diag (.redefConst n))
    else collectConsts t rest (acc ++ [(n, v)])
  | _ :: rest, acc => collectConsts t rest acc

/-- Second phase of `resolve_consts`: evaluate each constant against the
constants resolved so far, in statement order. -/
def evalConsts : List (String × Expr) → Dict → Except CErr Dict
  | [], consts => .ok consts
  | (n, v) :: rest, consts =>
    match v.eval consts with
    | .ok i => evalConsts rest (dictPut consts n i)
    | .error e => .error (evToC e)

/-- `Compiler.resolve_consts`. -/
def resolveConsts (t : Target) (stmts : List Stmt) : Except CErr Dict :=
  match collectConsts t stmts [] with
  | .ok pairs => evalConsts pairs []
  | .error e => .error e

/-- `Compiler.resolve_offset`: compute the target location from the
`relative` marker, then reject targets above `max_addr` or before the
current location. -/
def resolveOffset (t : Target) (loc : Int) (off : Int) (rel : Option String) :
    Except CErr Int :=
  let offsetLoc : Int :=
    if rel = some "+" then loc + off
    else if rel = some "-" then t.maxAddr - off + 1
    else off
  if offsetLoc > t.maxAddr then .error (.diag (.offsetOversized offsetLoc))
  else if offsetLoc < loc then .error (.diag (.offsetBackwards offsetLoc))
  else .ok offsetLoc

/-- The bare-expression rewrite of `scan` and `__iter__`: a bare `Name`
equal to a constant becomes a `Val` of its value, any other bare `Name`
becomes a nullary `Op`, any other bare expression is evaluated against
the scope into a `Val`. -/
def rewriteExpr (consts scope : Dict) : Expr → Except CErr OpOrVal
  | .name n =>
    (match dictGet consts n with
     | some v => .ok (.valS v)
     | none => .ok (.opS n []))
  | e =>
    (match e.eval scope with
     | .ok v => .ok (.valS v)
     | .error e2 => .error (evToC e2))

/-- One pass-1 step of `Compiler.scan` for a single statement. -/
def scanStep (t : Target) (st : CSt) : Stmt → Except CErr CSt
  | .const _ _ => .ok st
  | .label n =>
    if (instrGet t n).isSome then .error (.diag (.reservedLabel n))
    else if (dictGet st.labels n).isSome then .error (.diag (.redefLabel n))
    else if (dictGet st.consts n).isSome then .error (.diag (.labelCollidesConst n))
    else .ok { st with labels := dictPut st.labels n st.loc,
                       scope := dictPut st.scope n st.loc }
  | .offset off rel =>
    (match resolveOffset t st.loc off rel with
     | .error e => .error e
     | .ok offsetLoc =>
       match st.lastInst with
       | none => .error (.diag .offsetNoPad)
       | some li =>
         let paddingLen := offsetLoc - st.loc
         if Int.fmod paddingLen (li.size : Int) ≠ 0 then
           -- the source raises the divisor diagnostic for operations and
           -- an internal invariant exception for bare values
           if li.isOperation then .error (.diag (.offsetNotDivisor li.mnem))
           else .error .crash
         else .ok { st with loc := offsetLoc })
  | .op mn args =>
    if st.loc > t.maxAddr then .error (.diag .tooLarge)
    else
      (match getInstruction t st.scope (.opS mn args) with
       | .error e => .error e
       | .ok inst => .ok { st with lastInst := some inst, loc := st.loc + inst.size })
  | .expr e =>
    if st.loc > t.maxAddr then .error (.diag .tooLarge)
    else
      (match rewriteExpr st.consts st.scope e with
       | .error e2 => .error e2
       | .ok ov =>
         match getInstruction t st.scope ov with
         | .error e2 => .error e2
         | .ok inst => .ok { st with lastInst := some inst, loc := st.loc + inst.size })

/-- The statement loop of `Compiler.scan`. -/
def scanWalk (t : Target) : List Stmt → CSt → Except CErr CSt
  | [], st => .ok st
  | s :: rest, st =>
    match scanStep t st s with
    | .ok st2 => scanWalk t rest st2
    | .error e => .error e

/-- `Compiler.scan`: resolve constants, then walk the statements from
location zero with the scope seeded by the constants. -/
def scan (t : Target) (stmts : List Stmt) : Except CErr CSt :=
  match resolveConsts t stmts with
  | .error e => .error e
  | .ok consts =>
    scanWalk t stmts
      { labels := [], consts := consts, scope := consts, loc := 0, lastInst := none }

/-- Padding emission of the `Offset` branch of `__iter__`: `n` copies of
the last instruction encoding; with zero copies the encoder is never
invoked, so its errors do not surface. -/
def padCopies (n : Nat) (enc : Except CErr (List Int)) : Except CErr (List Int) :=
  match n with
  | 0 => .ok []
  | m + 1 =>
    match enc with
    | .ok bs => .ok (List.flatten (List.replicate (m + 1) bs))
    | .error e => .error e

/-- One pass-2 step of `Compiler.__iter__` for a single statement:
returns emitted bytes, the new location, and the new last instruction. -/
def iterStep (t : Target) (labels consts scope : Dict) (loc : Int)
    (lastInst : Option Inst) : Stmt → Except CErr (List Int × Int × Option Inst)
  | .op mn args =>
    (match getInstruction t scope (.opS mn args) with
     | .error e => .error e
     | .ok inst =>
       match encodeInst t labels scope inst with
       | .error e => .error e
       | .ok bs => .ok (bs, loc + inst.size, some inst))
  | .expr e =>
    (match rewriteExpr consts scope e with
     | .error e2 => .error e2
     | .ok ov =>
       match getInstruction t scope ov with
       | .error e2 => .error e2
       | .ok inst =>
         match encodeInst t labels scope inst with
         | .error e2 => .error e2
         | .ok bs => .ok (bs, loc + inst.size, some inst))
  | .offset off rel =>
    (match resolveOffset t loc off rel with
     | .error e => .error e
     | .ok offsetLoc =>
       match lastInst with
       | none => .error .crash  -- the cast in the source hides an abort
       | some li =>
         let paddingLen := offsetLoc - loc
         let n := (Int.fdiv paddingLen (li.size : Int)).toNat
         match padCopies n (encodeInst t labels scope li) with
         | .error e => .error e
         | .ok bs => .ok (bs, offsetLoc, lastInst))
  | _ => .ok ([], loc, lastInst)

/-- The statement loop of `Compiler.__iter__` after `scan` has run. -/
def iterWalk (t : Target) (labels consts scope : Dict) :
    List Stmt → Int → Option Inst → Except CErr (List Int)
  | [], _, _ => .ok []
  | s :: rest, loc, li =>
    match iterStep t labels consts scope loc li s with
    | .error e => .error e
    | .ok (bs, loc2, li2) =>
      match iterWalk t labels consts scope rest loc2 li2 with
      | .error e => .error e
      | .ok bs2 => .ok (bs ++ bs2)

/-- `list(compiler)`: run `scan`, then the encoding pass with the
resolved mappings. -/
def compileRun (t : Target) (stmts : List Stmt) : Except CErr (List Int) :=
  match scan t stmts with
  | .error e => .error e
  | .ok stF => iterWalk t stF.labels stF.consts stF.scope stmts 0 none

/-! ## Targets (`wes/compilers/sap.py`, `wes/compilers/wdc.py`) -/

/-- The SAP instruction table of `CompileSap`. -/
def sapInstrs : List (String × InstKind) :=
  [("nop", .constK 0b00000000),
   ("lda", .sapUK 0b0001),
   ("add", .sapUK 0b0010),
   ("sub", .sapUK 0b0011),
   ("sta", .sapUK 0b0100),
   ("ldi", .sapUK 0b0101),
   ("jmp", .sapUK 0b0110),
   ("jc", .sapUK 0b0111),
   ("jz", .sapUK 0b1000),
   ("out", .constK 0b11100000),
   ("word", .wordK),
   ("hlt", .constK 0b11110000)]

/-- `CompileSap`: `max_addr = 15`, `max_val = 255`. -/
def sapTarget : Target :=
  { maxAddr := 15, maxVal := 255, instrs := sapInstrs }

/-- `Adc.op_codes`. -/
def adcCodes : List (Option (Fmt × Nat) × Int) :=
  [(some (.dir, 2), 0x6D), (some (.idxX, 2), 0x7D), (some (.idxY, 2), 0x79),
   (some (.imm, 1), 0x69), (some (.dir, 1), 0x65), (some (.idxInd, 1), 0x61),
   (some (.idxX, 1), 0x75), (some (.ind, 1), 0x72), (some (.indY, 1), 0x71)]

/-- `And.op_codes`. -/
def andCodes : List (Option (Fmt × Nat) × Int) :=
  [(some (.dir, 2), 0x2D), (some (.idxX, 2), 0x3D), (some (.idxY, 2), 0x39),
   (some (.imm, 1), 0x29), (some (.dir, 1), 0x25), (some (.idxInd, 1), 0x21),
   (some (.idxX, 1), 0x35), (some (.ind, 1), 0x32), (some (.indY, 1), 0x31)]

/-- `Asl.op_codes` (the `None` key is the no-argument accumulator row). -/
def aslCodes : List (Option (Fmt × Nat) × Int) :=
  [(some (.dir, 2), 0x0E), (some (.idxX, 2), 0x1E), (none, 0x0A),
   (some (.dir, 1), 0x06), (some (.idxX, 1), 0x16)]

/-- `Lda.op_codes`. -/
def ldaCodes : List (Option (Fmt × Nat) × Int) :=
  [(some (.dir, 2), 0xAD), (some (.idxX, 2), 0xBD), (some (.idxY, 2), 0xB9),
   (some (.imm, 1), 0xA9), (some (.dir, 1), 0xA5), (some (.idxInd, 1), 0xA1),
   (some (.idxX, 1), 0xB5), (some (.ind, 1), 0xB2), (some (.indY, 1), 0xB1)]

/-- `Ldx.op_codes`. -/
def ldxCodes : List (Option (Fmt × Nat) × Int) :=
  [(some (.dir, 2), 0xAE), (some (.idxY, 2), 0xBE), (some (.imm, 1), 0xA2),
   (some (.dir, 1), 0xA6), (some (.idxY, 1), 0xB6)]

/-- The 6502 instruction table of `Compile6502`. -/
def wdcInstrs : List (String × InstKind) :=
  [("adc", .wdcUK adcCodes),
   ("and", .wdcUK andCodes),
   ("asl", .wdcUK aslCodes),
   ("bbr0", .relUK 0x0F), ("bbr1", .relUK 0x1F), ("bbr2", .relUK 0x2F),
   ("bbr3", .relUK 0x3F), ("bbr4", .relUK 0x4F), ("bbr5", .relUK 0x5F),
   ("bbr6", .relUK 0x6F), ("bbr7", .relUK 0x7F),
   ("bbs0", .relUK 0x8F), ("bbs1", .relUK 0x9F), ("bbs2", .relUK 0xAF),
   ("bbs3", .relUK 0xBF), ("bbs4", .relUK 0xCF), ("bbs5", .relUK 0xDF),
   ("bbs6", .relUK 0xEF), ("bbs7", .relUK 0xFF),
   ("bcc", .relUK 0x90), ("bcs", .relUK 0xB0), ("beq", .relUK 0xF0),
   ("nop", .constK 0xEA),
   ("lda", .wdcUK ldaCodes),
   ("ldx", .wdcUK ldxCodes)]

/-- `Compile6502`: `max_addr = 0xFFFF`, `max_val = 255`. -/
def wdcTarget : Target :=
  { maxAddr := 65535, maxVal := 255, instrs := wdcInstrs }

/-! ## End-to-end assembly -/

/-- All errors an assembly run can end in. -/
inductive AsmErr
  | front (e : FrontErr)
  | comp (e : CErr)
deriving DecidableEq, Repr

/-- Lex, parse, and compile a source file for a target. -/
def assemble (t : Target) (src : String) : Except AsmErr (List Int) :=
  match parseSrc src with
  | .error e => .error (.front e)
  | .ok stmts =>
    match compileRun t stmts with
    | .ok bs => .ok bs
    | .error e => .error (.comp e)

/-- Assemble for the SAP target. -/
def sapAssemble (src : String) : Except AsmErr (List Int) :=
  assemble sapTarget src

/-- Assemble for the 6502 target. -/
def wdcAssemble (src : String) : Except AsmErr (List Int) :=
  assemble wdcTarget src

/-- Run only pass 1 for the SAP target on a source file (used by the
statements about `scan`). -/
def sapScan (src : String) : Except AsmErr CSt :=
  match parseSrc src with
  | .error e => .error (.front e)
  | .ok stmts =>
    match scan sapTarget stmts with
    | .ok st => .ok st
    | .error e => .error (.comp e)

end Wes

namespace Wes

/-! ## Concrete programs referenced by the statements -/

/-- The SAP count program of `tests/compilers/test_sap.py`
`test_compile_count`, verbatim. -/
def sapCountSrc : String :=
  "\n; Counts from 42 to 256 (zero really in 8 bits), then down from 255 to 1\n; before halting\n\nlda init\n\ncount_up:\n  out\n  add incr\n  jc count_down  ; jump to \x22count_down\x22 if we overflowed\n  jmp count_up\n\ncount_down:\n  out\n  sub incr\n  jz end         ; jump to \x22end\x22 if we hit zero\n  jmp count_down\n\nend: hlt\n\ninit: 42\nincr: 1\n"

end Wes

/-- C1: compiling the SAP count program listed in the source tests (a
`lda init` followed by labelled count loops using out, add, jc, jmp, sub,
jz, a `hlt`, and the data statements `init: 42` and `incr: 1`) on the SAP
target succeeds and yields exactly the byte sequence
[26, 224, 43, 117, 97, 224, 59, 137, 101, 240, 42, 1], in that order. -/
theorem Wes.c1_sap_count_program :
    Wes.sapAssemble Wes.sapCountSrc =
      .ok [26, 224, 43, 117, 97, 224, 59, 137, 101, 240, 42, 1] := by
  decide

/-- C5: assembling the single statement `lda [[0xff] + y]` on the 6502
target succeeds (the atom production accepts a bracketed expression, so
brackets nest inside an argument) and emits exactly the bytes
[0xB1, 0xFF]: the indirect-indexed-with-y opcode for `lda` followed by
the one-byte operand. -/
theorem Wes.c5_lda_ind_y :
    Wes.wdcAssemble "lda [[0xff] + y]" = .ok [0xB1, 0xFF] := by
  decide

namespace Wes

/-- Spec-side offset-target formula, following the claim text: the
literal `N` for an absolute `N:`, `loc + N` for `+N:`, and
`max_addr - N + 1` for `-N:`. -/
def specOffsetTarget (maxAddr loc off : Int) (rel : Option String) : Int :=
  if rel = some "+" then loc + off
  else if rel = some "-" then maxAddr - off + 1
  else off

end Wes

/-- C2: for every offset directive processed in pass 1 with location
counter `loc`, the target is the literal `N` for `N:`, `loc + N` for
`+N:`, and `max_addr - N + 1` for `-N:`; the resolution step fails with
a diagnostic if and only if the target exceeds `max_addr` or is less
than `loc` (the offset-statement branch of pass 1 can fail further, for
padding reasons, which is the subject of C3).  In particular, on the SAP
target a `nop` followed by `-2:` pads with copies of the `nop` encoding
until the location counter equals 14 = 15 - 2 + 1. -/
theorem Wes.c2_resolve_offset :
    (∀ (t : Wes.Target) (loc off : Int) (rel : Option String),
      rel = none ∨ rel = some "+" ∨ rel = some "-" →
      ((∃ d, Wes.resolveOffset t loc off rel = .error (.diag d)) ↔
        (Wes.specOffsetTarget t.maxAddr loc off rel > t.maxAddr ∨
         Wes.specOffsetTarget t.maxAddr loc off rel < loc)) ∧
      (Wes.resolveOffset t loc off rel =
          .ok (Wes.specOffsetTarget t.maxAddr loc off rel) ↔
        ¬(Wes.specOffsetTarget t.maxAddr loc off rel > t.maxAddr ∨
          Wes.specOffsetTarget t.maxAddr loc off rel < loc))) ∧
    Wes.sapScan "nop\n-2:" =
      .ok { labels := [], consts := [], scope := [], loc := 14,
            lastInst := some (.constantI "nop" 0) } ∧
    Wes.sapAssemble "nop\n-2:" = .ok (List.replicate 14 0) := by
  refine ⟨fun t loc off rel _ => ?_, by decide, by decide⟩
  have key : Wes.resolveOffset t loc off rel =
      (if Wes.specOffsetTarget t.maxAddr loc off rel > t.maxAddr then
         .error (.diag (.offsetOversized (Wes.specOffsetTarget t.maxAddr loc off rel)))
       else if Wes.specOffsetTarget t.maxAddr loc off rel < loc then
         .error (.diag (.offsetBackwards (Wes.specOffsetTarget t.maxAddr loc off rel)))
       else .ok (Wes.specOffsetTarget t.maxAddr loc off rel)) := rfl
  rw [key]
  constructor
  · constructor
    · rintro ⟨d, hd⟩
      by_cases h1 : Wes.specOffsetTarget t.maxAddr loc off rel > t.maxAddr
      · exact Or.inl h1
      · by_cases h2 : Wes.specOffsetTarget t.maxAddr loc off rel < loc
        · exact Or.inr h2
        · rw [if_neg h1, if_neg h2] at hd
          cases hd
    · intro h
      by_cases h1 : Wes.specOffsetTarget t.maxAddr loc off rel > t.maxAddr
      · rw [if_pos h1]; exact ⟨_, rfl⟩
      · rcases h with h | h
        · exact absurd h h1
        · rw [if_neg h1, if_pos h]; exact ⟨_, rfl⟩
  · constructor
    · intro h
      by_cases h1 : Wes.specOffsetTarget t.maxAddr loc off rel > t.maxAddr
      · rw [if_pos h1] at h; cases h
      · by_cases h2 : Wes.specOffsetTarget t.maxAddr loc off rel < loc
        · rw [if_neg h1, if_pos h2] at h; cases h
        · exact fun hc => hc.elim h1 h2
    · intro h
      rw [if_neg (fun hc => h (Or.inl hc)), if_neg (fun hc => h (Or.inr hc))]

/-- C2 witness: the characterization applied at the concrete back-offset
`-2:` from location 1 on the SAP target. -/
theorem Wes.c2_resolve_offset_witness :
    Wes.resolveOffset Wes.sapTarget 1 2 (some "-") =
      .ok (Wes.specOffsetTarget Wes.sapTarget.maxAddr 1 2 (some "-")) :=
  ((Wes.c2_resolve_offset.1 Wes.sapTarget 1 2 (some "-")
    (Or.inr (Or.inr rfl))).2).mpr (by decide)

/-- C3 (code bug witness): on the SAP program `-256` followed by `3:`,
the bare value evaluates to -256, whose `byte_length` is 2 even though
`Value.validate` accepts it (only an upper bound is checked), so the
offset gap of 1 is not a multiple of the padding size; the source then
raises its internal invariant `Exception` (its comment asserts values
always have size 1) instead of the diagnostic the claim promises. -/
theorem Wes.c3_value_padding_crash :
    Wes.sapScan "-256\n3:" = .error (.comp .crash) ∧
    Wes.byteLength (-256) = 2 ∧ ¬((-256 : Int) > Wes.sapTarget.maxVal) := by
  refine ⟨by decide, by decide, by decide⟩

namespace Wes

/-- The statements of the `Op`/bare-expression branch of `scan`. -/
def Stmt.isOpExpr : Stmt → Bool
  | .op _ _ => true
  | .expr _ => true
  | _ => false

/-- `scanWalk` splits over list append. -/
theorem scanWalk_append (t : Target) (xs ys : List Stmt) (st : CSt) :
    scanWalk t (xs ++ ys) st =
      match scanWalk t xs st with
      | .ok st2 => scanWalk t ys st2
      | .error e => .error e := by
  induction xs generalizing st with
  | nil => simp [scanWalk]
  | cons s rest ih =>
    simp only [List.cons_append, scanWalk]
    cases scanStep t st s with
    | ok st2 => exact ih st2
    | error e => rfl

end Wes

/-- C7 (amended): the location-counter check of pass 1 runs at the start
of each `Op`/bare-expression statement, before the instruction is
constructed and its size added: a statement reached with `loc` already
above `max_addr` fails with the too-large diagnostic, and consequently
every instruction of an accepted program starts at a location at most
`max_addr` (the counter after the final instruction may exceed it, as
the C7 counterexample shows). -/
theorem Wes.c7_check_before_statement :
    (∀ (t : Wes.Target) (st : Wes.CSt) (s : Wes.Stmt),
      s.isOpExpr = true → st.loc > t.maxAddr →
      Wes.scanStep t st s = .error (.diag .tooLarge)) ∧
    (∀ (t : Wes.Target) (pre post : List Wes.Stmt) (s : Wes.Stmt)
        (st0 stF : Wes.CSt),
      s.isOpExpr = true →
      Wes.scanWalk t (pre ++ s :: post) st0 = .ok stF →
      ∃ stMid, Wes.scanWalk t pre st0 = .ok stMid ∧ stMid.loc ≤ t.maxAddr) := by
  have h1 : ∀ (t : Wes.Target) (st : Wes.CSt) (s : Wes.Stmt),
      s.isOpExpr = true → st.loc > t.maxAddr →
      Wes.scanStep t st s = .error (.diag .tooLarge) := by
    intro t st s hs hloc
    cases s with
    | op mn args => simp [Wes.scanStep, hloc]
    | expr e => simp [Wes.scanStep, hloc]
    | label n => simp [Wes.Stmt.isOpExpr] at hs
    | const n v => simp [Wes.Stmt.isOpExpr] at hs
    | offset o r => simp [Wes.Stmt.isOpExpr] at hs
  refine ⟨h1, ?_⟩
  intro t pre post s st0 stF hs hw
  rw [Wes.scanWalk_append] at hw
  cases hmid : Wes.scanWalk t pre st0 with
  | error e => rw [hmid] at hw; exact absurd hw (by simp)
  | ok stMid =>
    refine ⟨stMid, rfl, ?_⟩
    rw [hmid] at hw
    have hw2 : Wes.scanWalk t (s :: post) stMid = .ok stF := hw
    by_contra hgt
    push_neg at hgt
    have hstep := h1 t stMid s hs hgt
    rw [show Wes.scanWalk t (s :: post) stMid = .error (.diag .tooLarge) from by
      simp [Wes.scanWalk, hstep]] at hw2
    exact absurd hw2 (by simp)

/-- C7 amended witness: the invariant applied to the one-instruction SAP
program `nop`. -/
theorem Wes.c7_check_before_statement_witness :
    ∃ stMid, Wes.scanWalk Wes.sapTarget []
        { labels := [], consts := [], scope := [], loc := 0, lastInst := none } =
        .ok stMid ∧ stMid.loc ≤ Wes.sapTarget.maxAddr :=
  Wes.c7_check_before_statement.2 Wes.sapTarget [] [] (.op "nop" [])
    { labels := [], consts := [], scope := [], loc := 0, lastInst := none }
    { labels := [], consts := [], scope := [], loc := 1,
      lastInst := some (.constantI "nop" 0) }
    (by decide) (by decide)

namespace Wes

/-- Sixteen `nop` statements: a program that exactly fills the SAP
address space. -/
def sixteenNops : String :=
  "nop\nnop\nnop\nnop\nnop\nnop\nnop\nnop\nnop\nnop\nnop\nnop\nnop\nnop\nnop\nnop"

end Wes

/-- C7 counterexample: pass 1 accepts sixteen one-byte instructions on
the SAP target and finishes with location counter 16, which exceeds
`max_addr = 15`; the claim as stated (failure whenever the counter
exceeds `max_addr` after adding a size) would reject this program. -/
theorem Wes.c7_counterexample :
    Wes.sapScan Wes.sixteenNops =
      .ok { labels := [], consts := [], scope := [], loc := 16,
            lastInst := some (.constantI "nop" 0) } ∧
    (16 : Int) > Wes.sapTarget.maxAddr := by
  exact ⟨by decide, by decide⟩

/-- C9 counterexample: `Word.encode` evaluates its operand against
`self.compiler.labels` only, not the combined scope, so a `word` operand
naming a defined constant fails with the unbound-name diagnostic instead
of emitting the constant value little-endian. -/
theorem Wes.c9_counterexample :
    Wes.sapAssemble "foo = 5\nword foo" =
      .error (.comp (.diag (.unboundName "foo"))) := by
  decide

/-- C9 (amended): name resolution for ordinary operand evaluation uses
the scope passed to `Expr.eval` - a `Name` evaluates to its binding and
fails with the unbound-name diagnostic exactly when the scope does not
bind it - but `Word.encode` evaluates its operand against the label
mapping only: it emits the two little-endian bytes of the evaluated
value, failing iff the value exceeds 65535, and an operand naming no
label fails as unbound even when the combined scope binds it as a
constant. -/
theorem Wes.c9_name_resolution :
    (∀ (scope : Wes.Dict) (n : String) (v : Int),
      (Wes.Expr.eval scope (.name n) = .ok v ↔ Wes.dictGet scope n = some v) ∧
      (Wes.Expr.eval scope (.name n) = .error (.unbound n) ↔
        Wes.dictGet scope n = none)) ∧
    (∀ (t : Wes.Target) (labels scope : Wes.Dict) (arg : Wes.Expr) (v : Int),
      Wes.Expr.eval labels arg = .ok v →
      Wes.encodeInst t labels scope (.word arg) =
        if v > 65535 then .error (.diag (.wordTooBig v))
        else .ok [Wes.pyAnd v 255, Wes.pyAnd (Int.fdiv v 256) 255]) ∧
    (∀ (t : Wes.Target) (labels scope : Wes.Dict) (n : String),
      Wes.dictGet labels n = none →
      Wes.encodeInst t labels scope (.word (.name n)) =
        .error (.diag (.unboundName n))) := by
  refine ⟨?_, ?_, ?_⟩
  · intro scope n v
    constructor
    · constructor
      · intro h
        cases hd : Wes.dictGet scope n with
        | some w => simp [Wes.Expr.eval, hd] at h; rw [h]
        | none => simp [Wes.Expr.eval, hd] at h
      · intro h
        simp [Wes.Expr.eval, h]
    · constructor
      · intro h
        cases hd : Wes.dictGet scope n with
        | some w => simp [Wes.Expr.eval, hd] at h
        | none => rfl
      · intro h
        simp [Wes.Expr.eval, h]
  · intro t labels scope arg v hv
    simp [Wes.encodeInst, hv]
  · intro t labels scope n hn
    simp [Wes.encodeInst, Wes.Expr.eval, hn, Wes.evToC]

/-- C9 amended witness: with `foo` bound as a constant (so present in
the combined scope) but absent from the label mapping, the `word`
encoder still reports it unbound. -/
theorem Wes.c9_name_resolution_witness :
    Wes.encodeInst Wes.sapTarget [] [("foo", 5)] (.word (.name "foo")) =
      .error (.diag (.unboundName "foo")) :=
  Wes.c9_name_resolution.2.2 Wes.sapTarget [] [("foo", 5)] "foo" (by decide)

namespace Wes

/-! ## Spec-side literal shapes for C8 -/

/-- State machine for underscore placement: the flag records whether the
previous character was an underscore awaiting a digit. -/
def usRun : Bool → List Char → Bool
  | true, [] => false
  | true, c :: r => if c = '_' then false else usRun false r
  | false, [] => true
  | false, c :: r => if c = '_' then usRun true r else usRun false r

/-- Underscore placement inside a digit run, after the first digit: each
underscore must be followed directly by a digit (hence none trailing and
none doubled). -/
def usTail (l : List Char) : Bool := usRun false l

/-- A digit run that must start with a digit (no leading underscore). -/
def usStrict : List Char → Bool
  | [] => false
  | c :: r => if c = '_' then false else usRun false r

/-- The digit run after a base prefix: Python permits one underscore
directly after the prefix. -/
def usBody : List Char → Bool
  | [] => false
  | c :: r => if c = '_' then usStrict r else usRun false r

theorem usTail_cons_ne {c : Char} (r : List Char) (hc : c ≠ '_') :
    usTail (c :: r) = usTail r := by
  rw [show usTail (c :: r) =
      (if c = '_' then usRun true r else usRun false r) from rfl, if_neg hc]
  rfl

theorem usTail_underscore {c2 : Char} (r2 : List Char) (hc2 : c2 ≠ '_') :
    usTail ('_' :: c2 :: r2) = usTail r2 := by
  rw [show usTail ('_' :: c2 :: r2) = usRun true (c2 :: r2) from rfl,
    show usRun true (c2 :: r2) = (if c2 = '_' then false else usRun false r2)
      from rfl,
    if_neg hc2]
  rfl

theorem usStrict_cons_ne {c : Char} (r : List Char) (hc : c ≠ '_') :
    usStrict (c :: r) = usTail r := by
  rw [show usStrict (c :: r) = (if c = '_' then false else usRun false r) from rfl,
    if_neg hc]
  rfl

theorem usBody_underscore (r : List Char) : usBody ('_' :: r) = usStrict r := rfl

theorem usBody_cons_ne {c : Char} (r : List Char) (hc : c ≠ '_') :
    usBody (c :: r) = usTail r := by
  rw [show usBody (c :: r) = (if c = '_' then usStrict r else usRun false r)
      from rfl,
    if_neg hc]
  rfl

/-- The four claim shapes of C8: `0b[01_]+`, `0o[0-7_]+`, `[0-9][0-9_]*`,
`0x[0-9a-fA-F_]+` (note the decimal shape starts with a digit, unlike the
`[0-9_]+` of the code regex). -/
def specLitShape (cs : List Char) : Bool :=
  (match cs with
   | '0' :: 'b' :: rest => !rest.isEmpty && rest.all isBinC
   | _ => false) ||
  (match cs with
   | '0' :: 'o' :: rest => !rest.isEmpty && rest.all isOctC
   | _ => false) ||
  (match cs with
   | c :: rest => isDigitC c && rest.all isDecC
   | [] => false) ||
  (match cs with
   | '0' :: 'x' :: rest => !rest.isEmpty && rest.all isHexC
   | _ => false)

/-- Base of a claim-shape literal. -/
def specLitBase (cs : List Char) : Nat :=
  match cs with
  | '0' :: 'b' :: _ => 2
  | '0' :: 'o' :: _ => 8
  | '0' :: 'x' :: _ => 16
  | _ => 10

/-- Digit part of a claim-shape literal (prefix stripped). -/
def specLitBody (cs : List Char) : List Char :=
  match cs with
  | '0' :: 'b' :: r => r
  | '0' :: 'o' :: r => r
  | '0' :: 'x' :: r => r
  | _ => cs

/-- Well-placed underscores for a claim-shape literal: strictly between
digits, except that one underscore may directly follow the base
prefix. -/
def specLitOk (cs : List Char) : Bool :=
  match cs with
  | '0' :: 'b' :: r => usBody r
  | '0' :: 'o' :: r => usBody r
  | '0' :: 'x' :: r => usBody r
  | _ => usStrict cs

/-- Base-`b` value of a digit run, ignoring underscores. -/
def valueFold (b : Nat) (l : List Char) (acc : Nat) : Nat :=
  l.foldl (fun a c => if c = '_' then a else a * b + (digitVal c).getD 0) acc

/-- The value a claim-shape literal denotes: its digits in the base of
its prefix, with all underscores ignored. -/
def specLitValue (cs : List Char) : Nat :=
  valueFold (specLitBase cs) (specLitBody cs) 0

/-- A digit set valid for base `b`: every non-underscore character is a
digit of value below `b`. -/
def DigitsBelow (b : Nat) (l : List Char) : Prop :=
  ∀ c ∈ l, c ≠ '_' → ∃ d, digitVal c = some d ∧ d < b

theorem valueFold_underscore (b : Nat) (l : List Char) (acc : Nat) :
    valueFold b ('_' :: l) acc = valueFold b l acc := by
  simp [valueFold, List.foldl]

theorem valueFold_digit (b : Nat) (c : Char) (l : List Char) (acc : Nat)
    (hc : c ≠ '_') :
    valueFold b (c :: l) acc = valueFold b l (acc * b + (digitVal c).getD 0) := by
  simp [valueFold, List.foldl, hc]

/-- The digit-run loop of Python `int` agrees with the base fold on
well-placed, base-valid digit runs. -/
theorem pyIntGo_fold (b : Nat) :
    ∀ (n : Nat) (l : List Char), l.length ≤ n → ∀ (acc : Nat),
      usTail l = true → DigitsBelow b l →
      pyIntGo b l acc = some (valueFold b l acc) := by
  intro n
  induction n with
  | zero =>
    intro l hl acc _ _
    rw [List.length_eq_zero.mp (Nat.le_zero.mp hl)]
    simp [pyIntGo, valueFold]
  | succ n ih =>
    intro l hl acc hu hd
    cases l with
    | nil => simp [pyIntGo, valueFold]
    | cons c r =>
      by_cases hc : c = '_'
      · subst hc
        cases r with
        | nil =>
          rw [show usTail ['_'] = false from rfl] at hu
          simp at hu
        | cons c2 r2 =>
          by_cases hc2 : c2 = '_'
          · subst hc2
            rw [show usTail ('_' :: '_' :: r2) = false from rfl] at hu
            simp at hu
          · obtain ⟨d, hdv, hdb⟩ := hd c2 (by simp) hc2
            have hu2 : usTail r2 = true := by
              rw [usTail_underscore r2 hc2] at hu; exact hu
            have hd2 : DigitsBelow b r2 := fun x hx hne =>
              hd x (by simp [hx]) hne
            have hlen : r2.length ≤ n := by
              simp at hl; omega
            rw [show pyIntGo b ('_' :: c2 :: r2) acc = pyIntGo b r2 (acc * b + d) from by
                rw [pyIntGo.eq_def]; simp [hdv, hdb],
              valueFold_underscore, valueFold_digit b c2 r2 acc hc2, hdv]
            exact ih r2 hlen (acc * b + d) hu2 hd2
      · obtain ⟨d, hdv, hdb⟩ := hd c (by simp) hc
        have hu2 : usTail r = true := by
          rw [usTail_cons_ne r hc] at hu; exact hu
        have hd2 : DigitsBelow b r := fun x hx hne => hd x (by simp [hx]) hne
        have hlen : r.length ≤ n := by simp at hl; omega
        rw [show pyIntGo b (c :: r) acc = pyIntGo b r (acc * b + d) from by
            rw [pyIntGo.eq_def]; simp [hc, hdv, hdb],
          valueFold_digit b c r acc hc, hdv]
        exact ih r hlen (acc * b + d) hu2 hd2

/-- The digit part of Python `int` agrees with the base fold on strict
well-placed, base-valid digit runs. -/
theorem pyIntDigits_fold (b : Nat) (l : List Char)
    (hu : usStrict l = true) (hd : DigitsBelow b l) :
    pyIntDigits b l = some (valueFold b l 0) := by
  cases l with
  | nil => simp [usStrict] at hu
  | cons c r =>
    by_cases hc : c = '_'
    · subst hc
      rw [show usStrict ('_' :: r) = false from rfl] at hu
      simp at hu
    · obtain ⟨d, hdv, hdb⟩ := hd c (by simp) hc
      have hu2 : usTail r = true := by
        rw [usStrict_cons_ne r hc] at hu; exact hu
      have hd2 : DigitsBelow b r := fun x hx hne => hd x (by simp [hx]) hne
      rw [show pyIntDigits b (c :: r) = pyIntGo b r d from by
          rw [pyIntDigits.eq_def]; simp [hdv, hdb],
        valueFold_digit b c r 0 hc, hdv]
      simpa using pyIntGo_fold b r.length r le_rfl (0 * b + d) hu2 hd2

/-- `pyIntTail` (the after-prefix entry of Python `int`) agrees with the
base fold on well-placed bodies. -/
theorem pyIntTail_fold (b : Nat) (l : List Char)
    (hu : usBody l = true) (hd : DigitsBelow b l) :
    pyInt.pyIntTail b l = some (valueFold b l 0) := by
  cases l with
  | nil => simp [usBody] at hu
  | cons c r =>
    by_cases hc : c = '_'
    · subst hc
      have hu2 : usStrict r = true := by
        rw [usBody_underscore r] at hu; exact hu
      have hd2 : DigitsBelow b r := fun x hx hne => hd x (by simp [hx]) hne
      rw [show pyInt.pyIntTail b ('_' :: r) = pyIntDigits b r from rfl,
        valueFold_underscore]
      exact pyIntDigits_fold b r hu2 hd2
    · have hu2 : usStrict (c :: r) = true := by
        rw [usBody_cons_ne r hc] at hu
        rw [usStrict_cons_ne r hc]; exact hu
      rw [show pyInt.pyIntTail b (c :: r) = pyIntDigits b (c :: r) from by
          rw [pyInt.pyIntTail.eq_def]; simp [hc]]
      exact pyIntDigits_fold b (c :: r) hu2 hd

theorem digitVal_digit {c : Char} (h1 : 48 ≤ c.toNat) (h2 : c.toNat ≤ 57) :
    digitVal c = some (c.toNat - 48) := by
  unfold digitVal
  rw [if_pos ⟨h1, h2⟩]

theorem digitVal_lower {c : Char} (h1 : 97 ≤ c.toNat) (h2 : c.toNat ≤ 122) :
    digitVal c = some (c.toNat - 87) := by
  unfold digitVal
  rw [if_neg (by omega), if_pos ⟨h1, h2⟩]

theorem digitVal_upper {c : Char} (h1 : 65 ≤ c.toNat) (h2 : c.toNat ≤ 90) :
    digitVal c = some (c.toNat - 55) := by
  unfold digitVal
  rw [if_neg (by omega), if_neg (by omega), if_pos ⟨h1, h2⟩]

theorem digitsBelow_bin {l : List Char} (h : ∀ c ∈ l, isBinC c = true) :
    DigitsBelow 2 l := by
  intro c hc hne
  rcases (by simpa [isBinC] using h c hc : c = '0' ∨ c = '1' ∨ c = '_') with
    h0 | h1 | hu
  · exact ⟨0, by rw [h0]; decide, by decide⟩
  · exact ⟨1, by rw [h1]; decide, by decide⟩
  · exact absurd hu hne

theorem digitsBelow_oct {l : List Char} (h : ∀ c ∈ l, isOctC c = true) :
    DigitsBelow 8 l := by
  intro c hc hne
  have : (48 ≤ c.toNat ∧ c.toNat ≤ 55) ∨ c = '_' := by
    simpa [isOctC] using h c hc
  rcases this with ⟨h1, h2⟩ | hu
  · exact ⟨c.toNat - 48, digitVal_digit h1 (by omega), by omega⟩
  · exact absurd hu hne

theorem digitsBelow_dec {l : List Char} (h : ∀ c ∈ l, isDecC c = true) :
    DigitsBelow 10 l := by
  intro c hc hne
  have : (48 ≤ c.toNat ∧ c.toNat ≤ 57) ∨ c = '_' := by
    simpa [isDecC, isDigitC] using h c hc
  rcases this with ⟨h1, h2⟩ | hu
  · exact ⟨c.toNat - 48, digitVal_digit h1 h2, by omega⟩
  · exact absurd hu hne

theorem digitsBelow_hex {l : List Char} (h : ∀ c ∈ l, isHexC c = true) :
    DigitsBelow 16 l := by
  intro c hc hne
  have : (48 ≤ c.toNat ∧ c.toNat ≤ 57) ∨ (97 ≤ c.toNat ∧ c.toNat ≤ 102) ∨
      (65 ≤ c.toNat ∧ c.toNat ≤ 70) ∨ c = '_' := by
    simpa [isHexC, isDigitC] using h c hc
  rcases this with ⟨h1, h2⟩ | ⟨h1, h2⟩ | ⟨h1, h2⟩ | hu
  · exact ⟨c.toNat - 48, digitVal_digit h1 h2, by omega⟩
  · exact ⟨c.toNat - 87, digitVal_lower h1 (by omega), by omega⟩
  · exact ⟨c.toNat - 55, digitVal_upper h1 (by omega), by omega⟩
  · exact absurd hu hne

theorem isDecC_of_digit {c : Char} (h : isDigitC c = true) :
    isDecC c = true := by
  simp [isDecC]
  exact Or.inl (by simpa [isDigitC] using h)

/-- Symbolic single-token run of `parse_atom` on a literal: for a text
token whose text passes `VAL_RE` and converts via `str_to_int`, the atom
production consumes the token and yields the `Val`. -/
theorem parseAtom_literal (s : String) (f : Nat) (v : Nat)
    (hne1 : s ≠ "[") (hne2 : s ≠ "(")
    (hv : valRe s = true) (hn : strToIntS s = some v) :
    parseAtom (f + 2) [Tok.text s] { pos := 0, cache := [] } =
      .ok (some (.val (Int.ofNat v))) { pos := 1, cache := [] } := by
  have hget : ([Tok.text s])[(0 : Nat)]? = some (Tok.text s) := rfl
  simp [parseAtom, parseRun, maybeTok, expect, tsGet, hget, hne1, hne2, hv, hn]

end Wes

/-- C8 counterexample: the token `1_` has the claimed decimal shape
`[0-9][0-9_]*`, but parsing it as an atom does not yield `Val 1`: the
`VAL_RE` match succeeds and `str_to_int` then raises an uncaught
`ValueError` (Python rejects a trailing underscore), aborting the
assembler instead. -/
theorem Wes.c8_counterexample :
    Wes.specLitShape "1_".data = true ∧
    Wes.parseAtom Wes.pFuel [Wes.Tok.text "1_"] { pos := 0, cache := [] } =
      .err .valueError := by
  exact ⟨by decide, by decide⟩

/-- C8 (amended): for every integer literal token of one of the four
claimed shapes in which every underscore separator is placed strictly
between digits (or, in the prefixed forms, one underscore directly after
the base prefix) - the placement Python `int` accepts - parsing the
literal as an atom yields a `Val` whose value is the integer denoted by
its digits in the base of its prefix with all underscores ignored.
Tokens of a claimed shape with a misplaced underscore, such as `1_`,
instead abort with an uncaught `ValueError` (see the counterexample). -/
theorem Wes.c8_literal_roundtrip (cs : List Char)
    (h : Wes.specLitShape cs = true) (hok : Wes.specLitOk cs = true) :
    Wes.parseAtom Wes.pFuel [Wes.Tok.text ⟨cs⟩] { pos := 0, cache := [] } =
      .ok (some (.val (Int.ofNat (Wes.specLitValue cs))))
        { pos := 1, cache := [] } := by
  have main : Wes.strToInt cs = some (Wes.specLitValue cs) ∧
      Wes.valRe ⟨cs⟩ = true ∧ cs ≠ "[".data ∧ cs ≠ "(".data := by
    rcases cs with _ | ⟨a, _ | ⟨b2, r⟩⟩
    · simp [Wes.specLitShape] at h
    · -- single character: necessarily the decimal shape
      have ha : Wes.isDigitC a = true := by
        simpa [Wes.specLitShape] using h
      have hane : a ≠ '_' := by
        intro hEq; rw [hEq] at ha; simp [Wes.isDigitC] at ha
      have hd : Wes.DigitsBelow 10 [a] :=
        Wes.digitsBelow_dec (l := [a]) (by
          intro x hx
          rw [show x = a from by simpa using hx]
          exact Wes.isDecC_of_digit ha)
      have hu : Wes.usStrict [a] = true := by
        rw [Wes.usStrict_cons_ne [] hane]; rfl
      have hval : Wes.pyIntDigits 10 [a] = some (Wes.valueFold 10 [a] 0) :=
        Wes.pyIntDigits_fold 10 [a] hu hd
      refine ⟨?_, ?_, ?_, ?_⟩
      · have hstep : Wes.strToInt [a] = Wes.pyIntDigits 10 [a] := by
          by_cases h0 : a = '0' <;> simp [Wes.strToInt, Wes.pyInt, h0]
        rw [hstep, hval]
        rw [show Wes.specLitValue [a] =
            Wes.valueFold (Wes.specLitBase [a]) (Wes.specLitBody [a]) 0 from rfl,
          show Wes.specLitBase [a] = 10 from by
            rw [Wes.specLitBase.eq_def]
            by_cases h0 : a = '0' <;> simp [h0],
          show Wes.specLitBody [a] = [a] from by
            rw [Wes.specLitBody.eq_def]
            by_cases h0 : a = '0' <;> simp [h0]]
      · have haD : Wes.isDecC a = true := Wes.isDecC_of_digit ha
        simp [Wes.valRe, haD]
      · intro hEq
        have : a = '[' := by simpa using congrArg List.head? hEq
        rw [this] at ha; simp [Wes.isDigitC] at ha
      · intro hEq
        have : a = '(' := by simpa using congrArg List.head? hEq
        rw [this] at ha; simp [Wes.isDigitC] at ha
    · by_cases ha0 : a = '0'
      · subst ha0
        by_cases hb : b2 = 'b'
        · subst hb
          have hsh : r ≠ [] ∧ ∀ x ∈ r, Wes.isBinC x = true := by
            rcases (by simpa [Wes.specLitShape] using h :
                (¬r = [] ∧ ∀ x ∈ r, Wes.isBinC x = true) ∨
                Wes.isDigitC '0' = true ∧ Wes.isDecC 'b' = true ∧
                  ∀ x ∈ r, Wes.isDecC x = true) with h2 | h2
            · exact h2
            · exact absurd h2.2.1 (by decide)
          have hok2 : Wes.usBody r = true := by
            simpa [Wes.specLitOk] using hok
          have hval := Wes.pyIntTail_fold 2 r hok2 (Wes.digitsBelow_bin hsh.2)
          refine ⟨?_, ?_, by simp, by simp⟩
          · rw [show Wes.strToInt ('0' :: 'b' :: r) = Wes.pyInt.pyIntTail 2 r from
                rfl, hval]
            rfl
          · simp [Wes.valRe, hsh.1, List.all_eq_true.mpr hsh.2]
        · by_cases hbo : b2 = 'o'
          · subst hbo
            have hsh : r ≠ [] ∧ ∀ x ∈ r, Wes.isOctC x = true := by
              rcases (by simpa [Wes.specLitShape] using h :
                  (¬r = [] ∧ ∀ x ∈ r, Wes.isOctC x = true) ∨
                  Wes.isDigitC '0' = true ∧ Wes.isDecC 'o' = true ∧
                    ∀ x ∈ r, Wes.isDecC x = true) with h2 | h2
              · exact h2
              · exact absurd h2.2.1 (by decide)
            have hok2 : Wes.usBody r = true := by
              simpa [Wes.specLitOk] using hok
            have hval := Wes.pyIntTail_fold 8 r hok2 (Wes.digitsBelow_oct hsh.2)
            refine ⟨?_, ?_, by simp, by simp⟩
            · rw [show Wes.strToInt ('0' :: 'o' :: r) = Wes.pyInt.pyIntTail 8 r from
                  rfl, hval]
              rfl
            · simp [Wes.valRe, hsh.1, List.all_eq_true.mpr hsh.2]
          · by_cases hbx : b2 = 'x'
            · subst hbx
              have hsh : r ≠ [] ∧ ∀ x ∈ r, Wes.isHexC x = true := by
                rcases (by simpa [Wes.specLitShape] using h :
                    (Wes.isDigitC '0' = true ∧ Wes.isDecC 'x' = true ∧
                      ∀ x ∈ r, Wes.isDecC x = true) ∨
                    (¬r = [] ∧ ∀ x ∈ r, Wes.isHexC x = true)) with h2 | h2
                · exact absurd h2.2.1 (by decide)
                · exact h2
              have hok2 : Wes.usBody r = true := by
                simpa [Wes.specLitOk] using hok
              have hval := Wes.pyIntTail_fold 16 r hok2 (Wes.digitsBelow_hex hsh.2)
              refine ⟨?_, ?_, by simp, by simp⟩
              · rw [show Wes.strToInt ('0' :: 'x' :: r) =
                    Wes.pyInt.pyIntTail 16 r from rfl, hval]
                rfl
              · simp [Wes.valRe, hsh.1, List.all_eq_true.mpr hsh.2]
            · -- a leading zero with no base prefix: the decimal shape
              have hsh : Wes.isDecC b2 = true ∧ ∀ x ∈ r, Wes.isDecC x = true := by
                have h2 := (by simpa [Wes.specLitShape, hb, hbo, hbx] using h :
                  Wes.isDigitC '0' = true ∧ Wes.isDecC b2 = true ∧
                    ∀ x ∈ r, Wes.isDecC x = true)
                exact ⟨h2.2.1, h2.2.2⟩
              have hall : ∀ x ∈ ('0' :: b2 :: r), Wes.isDecC x = true := by
                intro x hx
                rcases List.mem_cons.mp hx with h1 | hx2
                · rw [h1]; decide
                · rcases List.mem_cons.mp hx2 with h1 | hx3
                  · rw [h1]; exact hsh.1
                  · exact hsh.2 x hx3
              have hok2 : Wes.usStrict ('0' :: b2 :: r) = true := by
                simpa [Wes.specLitOk, hb, hbo, hbx] using hok
              have hval := Wes.pyIntDigits_fold 10 ('0' :: b2 :: r) hok2
                (Wes.digitsBelow_dec hall)
              refine ⟨?_, ?_, by simp, by simp⟩
              · rw [show Wes.strToInt ('0' :: b2 :: r) =
                      Wes.pyIntDigits 10 ('0' :: b2 :: r) from by
                    rw [Wes.strToInt.eq_def]; simp [hb, hbo, hbx]
                    rw [Wes.pyInt.eq_def],
                  hval]
                rw [show Wes.specLitValue ('0' :: b2 :: r) =
                    Wes.valueFold (Wes.specLitBase ('0' :: b2 :: r))
                      (Wes.specLitBody ('0' :: b2 :: r)) 0 from rfl,
                  show Wes.specLitBase ('0' :: b2 :: r) = 10 from by
                    rw [Wes.specLitBase.eq_def]; simp [hb, hbo, hbx],
                  show Wes.specLitBody ('0' :: b2 :: r) = '0' :: b2 :: r from by
                    rw [Wes.specLitBody.eq_def]; simp [hb, hbo, hbx]]
              · simp [Wes.valRe, List.all_eq_true.mpr hall]
      · -- first character a nonzero digit: the decimal shape
        have hsh : Wes.isDigitC a = true ∧ Wes.isDecC b2 = true ∧
            ∀ x ∈ r, Wes.isDecC x = true := by
          simpa [Wes.specLitShape, ha0] using h
        have hane : a ≠ '_' := by
          intro hEq; rw [hEq] at hsh; simpa [Wes.isDigitC] using hsh.1
        have hall : ∀ x ∈ (a :: b2 :: r), Wes.isDecC x = true := by
          intro x hx
          rcases List.mem_cons.mp hx with h1 | hx2
          · rw [h1]; exact Wes.isDecC_of_digit hsh.1
          · rcases List.mem_cons.mp hx2 with h1 | hx3
            · rw [h1]; exact hsh.2.1
            · exact hsh.2.2 x hx3
        have hok2 : Wes.usStrict (a :: b2 :: r) = true := by
          simpa [Wes.specLitOk, ha0] using hok
        have hval := Wes.pyIntDigits_fold 10 (a :: b2 :: r) hok2
          (Wes.digitsBelow_dec hall)
        refine ⟨?_, ?_, ?_, ?_⟩
        · rw [show Wes.strToInt (a :: b2 :: r) =
                Wes.pyIntDigits 10 (a :: b2 :: r) from by
              rw [Wes.strToInt.eq_def]; simp [ha0]
              rw [Wes.pyInt.eq_def],
            hval]
          rw [show Wes.specLitValue (a :: b2 :: r) =
              Wes.valueFold (Wes.specLitBase (a :: b2 :: r))
                (Wes.specLitBody (a :: b2 :: r)) 0 from rfl,
            show Wes.specLitBase (a :: b2 :: r) = 10 from by
              rw [Wes.specLitBase.eq_def]; simp [ha0],
            show Wes.specLitBody (a :: b2 :: r) = a :: b2 :: r from by
              rw [Wes.specLitBody.eq_def]; simp [ha0]]
        · simp [Wes.valRe, List.all_eq_true.mpr hall]
        · intro hEq
          have : a = '[' := by simpa using congrArg List.head? hEq
          rw [this] at hsh; simpa [Wes.isDigitC] using hsh.1
        · intro hEq
          have : a = '(' := by simpa using congrArg List.head? hEq
          rw [this] at hsh; simpa [Wes.isDigitC] using hsh.1
  obtain ⟨hval, hvre, hne1, hne2⟩ := main
  have hne1s : (⟨cs⟩ : String) ≠ "[" := fun hEq => hne1 (by
    simpa using congrArg String.data hEq)
  have hne2s : (⟨cs⟩ : String) ≠ "(" := fun hEq => hne2 (by
    simpa using congrArg String.data hEq)
  have := Wes.parseAtom_literal ⟨cs⟩ (Wes.pFuel - 2) (Wes.specLitValue cs)
    hne1s hne2s hvre (by simpa [Wes.strToIntS] using hval)
  simpa using this

/-- C8 witness: the hex literal `0x1_f` has the claimed shape with a
well-placed underscore and parses to `Val 31`. -/
theorem Wes.c8_literal_roundtrip_witness :
    Wes.specLitShape "0x1_f".data = true ∧ Wes.specLitOk "0x1_f".data = true ∧
    Wes.parseAtom Wes.pFuel [Wes.Tok.text "0x1_f"] { pos := 0, cache := [] } =
      .ok (some (.val (Int.ofNat (Wes.specLitValue "0x1_f".data))))
        { pos := 1, cache := [] } :=
  ⟨by decide, by decide,
    Wes.c8_literal_roundtrip "0x1_f".data (by decide) (by decide)⟩

namespace Wes

/-! ## Spec-side operator table for C6 -/

/-- The ten binary operators plus `**`, lowest spec precedence first. -/
def c6ops : List String :=
  ["|", "^", "&", "<<", ">>", "+", "-", "*", "/", "%", "**"]

/-- Spec-side precedence, lowest to highest:
`|` `^` `&` `{<<,>>}` `{+,-}` `{*,/,%}` unary `**`. -/
def specPrec (o : String) : Nat :=
  if o = "|" then 0
  else if o = "^" then 1
  else if o = "&" then 2
  else if o = "<<" ∨ o = ">>" then 3
  else if o = "+" ∨ o = "-" then 4
  else if o = "*" ∨ o = "/" ∨ o = "%" then 5
  else 7

/-- Spec-side associativity: only `**` is right-associative. -/
def specRightAssoc (o : String) : Bool := o = "**"

/-- The source text `a o1 b o2 c`. -/
def c6src (o1 o2 : String) : String := "a " ++ o1 ++ " b " ++ o2 ++ " c"

/-- The parse tree the spec predicts for `a o1 b o2 c`: `o2` groups under
`o1` when it binds tighter, or at equal precedence when both are the
right-associative `**`; otherwise the left pair groups first. -/
def c6expected (o1 o2 : String) : Expr :=
  if specPrec o1 < specPrec o2 ∨
      (specPrec o1 = specPrec o2 ∧ specRightAssoc o1) then
    .binExpr (.name "a") o1 (.binExpr (.name "b") o2 (.name "c"))
  else
    .binExpr (.binExpr (.name "a") o1 (.name "b")) o2 (.name "c")

end Wes

namespace Wes

set_option maxHeartbeats 2000000 in
/-- The C6 pair table row for the left operator `|`. -/
theorem c6row0 : ∀ o2 ∈ c6ops,
    parseSrc (c6src "|" o2) = .ok [.expr (c6expected "|" o2)] := by
  decide

set_option maxHeartbeats 2000000 in
/-- The C6 pair table row for the left operator `^`. -/
theorem c6row1 : ∀ o2 ∈ c6ops,
    parseSrc (c6src "^" o2) = .ok [.expr (c6expected "^" o2)] := by
  decide

set_option maxHeartbeats 2000000 in
/-- The C6 pair table row for the left operator `&`. -/
theorem c6row2 : ∀ o2 ∈ c6ops,
    parseSrc (c6src "&" o2) = .ok [.expr (c6expected "&" o2)] := by
  decide

set_option maxHeartbeats 2000000 in
/-- The C6 pair table row for the left operator `<<`. -/
theorem c6row3 : ∀ o2 ∈ c6ops,
    parseSrc (c6src "<<" o2) = .ok [.expr (c6expected "<<" o2)] := by
  decide

set_option maxHeartbeats 2000000 in
/-- The C6 pair table row for the left operator `>>`. -/
theorem c6row4 : ∀ o2 ∈ c6ops,
    parseSrc (c6src ">>" o2) = .ok [.expr (c6expected ">>" o2)] := by
  decide

set_option maxHeartbeats 2000000 in
/-- The C6 pair table row for the left operator `+`. -/
theorem c6row5 : ∀ o2 ∈ c6ops,
    parseSrc (c6src "+" o2) = .ok [.expr (c6expected "+" o2)] := by
  decide

set_option maxHeartbeats 2000000 in
/-- The C6 pair table row for the left operator `-`. -/
theorem c6row6 : ∀ o2 ∈ c6ops,
    parseSrc (c6src "-" o2) = .ok [.expr (c6expected "-" o2)] := by
  decide

set_option maxHeartbeats 2000000 in
/-- The C6 pair table row for the left operator `*`. -/
theorem c6row7 : ∀ o2 ∈ c6ops,
    parseSrc (c6src "*" o2) = .ok [.expr (c6expected "*" o2)] := by
  decide

set_option maxHeartbeats 2000000 in
/-- The C6 pair table row for the left operator `/`. -/
theorem c6row8 : ∀ o2 ∈ c6ops,
    parseSrc (c6src "/" o2) = .ok [.expr (c6expected "/" o2)] := by
  decide

set_option maxHeartbeats 2000000 in
/-- The C6 pair table row for the left operator `%`. -/
theorem c6row9 : ∀ o2 ∈ c6ops,
    parseSrc (c6src "%" o2) = .ok [.expr (c6expected "%" o2)] := by
  decide

set_option maxHeartbeats 2000000 in
/-- The C6 pair table row for the left operator `**`. -/
theorem c6row10 : ∀ o2 ∈ c6ops,
    parseSrc (c6src "**" o2) = .ok [.expr (c6expected "**" o2)] := by
  decide

end Wes

set_option maxHeartbeats 800000 in
/-- C6: for every pair of binary operators among `|`, `^`, `&`, `<<`,
`>>`, `+`, `-`, `*`, `/`, `%`, `**`, parsing `a o1 b o2 c` groups by the
claimed precedence order, with the ten plain operators associating to
the left and `**` to the right; `**` binds tighter than unary `-` and
`~`, which associate to the right, and a unary operator may follow
`**`. -/
theorem Wes.c6_operator_precedence :
    (∀ o1 ∈ Wes.c6ops, ∀ o2 ∈ Wes.c6ops,
      Wes.parseSrc (Wes.c6src o1 o2) = .ok [.expr (Wes.c6expected o1 o2)]) ∧
    Wes.parseSrc "- a ** b" =
      .ok [.expr (.unExpr "-" (.binExpr (.name "a") "**" (.name "b")))] ∧
    Wes.parseSrc "~ a ** b" =
      .ok [.expr (.unExpr "~" (.binExpr (.name "a") "**" (.name "b")))] ∧
    Wes.parseSrc "- a * b" =
      .ok [.expr (.binExpr (.unExpr "-" (.name "a")) "*" (.name "b"))] ∧
    Wes.parseSrc "~ a + b" =
      .ok [.expr (.binExpr (.unExpr "~" (.name "a")) "+" (.name "b"))] ∧
    Wes.parseSrc "- - a" =
      .ok [.expr (.unExpr "-" (.unExpr "-" (.name "a")))] ∧
    Wes.parseSrc "~ - a" =
      .ok [.expr (.unExpr "~" (.unExpr "-" (.name "a")))] ∧
    Wes.parseSrc "a ** - b" =
      .ok [.expr (.binExpr (.name "a") "**" (.unExpr "-" (.name "b")))] := by
  refine ⟨?_, by decide, by decide, by decide, by decide, by decide,
    by decide, by decide⟩
  intro o1 ho1
  simp [Wes.c6ops] at ho1
  rcases ho1 with rfl | rfl | rfl | rfl | rfl | rfl | rfl | rfl | rfl | rfl | rfl
  exacts [Wes.c6row0, Wes.c6row1, Wes.c6row2, Wes.c6row3, Wes.c6row4,
    Wes.c6row5, Wes.c6row6, Wes.c6row7, Wes.c6row8, Wes.c6row9, Wes.c6row10]

/-- C6 witness: the lowest-precedence pair instance, `a | b ** c`,
grouping as `a | (b ** c)`. -/
theorem Wes.c6_operator_precedence_witness :
    Wes.parseSrc (Wes.c6src "|" "**") =
      .ok [.expr (Wes.c6expected "|" "**")] :=
  Wes.c6_operator_precedence.1 "|" (by decide) "**" (by decide)

namespace Wes

/-! ## Scope and size invariants for C10 -/

/-- One dictionary extends another pointwise: every binding visible in
the first is visible unchanged in the second. -/
def ScopeExt (d1 d2 : Dict) : Prop :=
  ∀ n v, dictGet d1 n = some v → dictGet d2 n = some v

/-- An instruction whose encoder, whenever it succeeds against any
mappings on the SAP target, emits exactly `size` values. -/
def instEncLenOk (li : Inst) : Prop :=
  ∀ (labels scope : Dict) (bs : List Int),
    encodeInst sapTarget labels scope li = .ok bs → bs.length = li.size

/-- Per-statement single-byte check: a bare expression rewritten to a
literal value must fit one byte (checked against the final mappings). -/
def valueStmtOk (consts scope : Dict) : Stmt → Bool
  | .expr e =>
    (match rewriteExpr consts scope e with
     | .ok (.valS v) => byteLength v == 1
     | _ => true)
  | _ => true

/-- All bare-value statements of the program fit one byte. -/
def valueSizesOk (consts scope : Dict) (stmts : List Stmt) : Bool :=
  stmts.all (valueStmtOk consts scope)

theorem dictGet_append (a b : Dict) (n : String) :
    dictGet (a ++ b) n =
      (match dictGet a n with
       | some v => some v
       | none => dictGet b n) := by
  induction a with
  | nil => simp [dictGet]
  | cons p r ih =>
    by_cases h : p.1 = n
    · simp [dictGet, List.find?_cons, h]
    · rw [show (p :: r) ++ b = p :: (r ++ b) from rfl]
      rw [show dictGet (p :: (r ++ b)) n = dictGet (r ++ b) n from by
        simp [dictGet, List.find?_cons, h]]
      rw [show dictGet (p :: r) n = dictGet r n from by
        simp [dictGet, List.find?_cons, h]]
      exact ih

/-- Evaluation only reads the scope, so extending the scope preserves
successful evaluations. -/
theorem eval_mono {d1 d2 : Dict} (h : ScopeExt d1 d2) (e : Expr) :
    ∀ (v : Int), Expr.eval d1 e = .ok v → Expr.eval d2 e = .ok v := by
  induction e with
  | val w => intro v hv; exact hv
  | name n =>
    intro v hv
    cases hd : dictGet d1 n with
    | some w =>
      have h2 := h n w hd
      simp [Expr.eval, hd] at hv
      simp [Expr.eval, h2, hv]
    | none => simp [Expr.eval, hd] at hv
  | unExpr op x ih =>
    intro v hv
    cases hx : Expr.eval d1 x with
    | ok w =>
      have h2 := ih w hx
      simp [Expr.eval, hx] at hv
      simp [Expr.eval, h2, hv]
    | error e2 => simp [Expr.eval, hx] at hv
  | binExpr x op y ihx ihy =>
    intro v hv
    cases hx : Expr.eval d1 x with
    | ok wx =>
      cases hy : Expr.eval d1 y with
      | ok wy =>
        have h2 := ihx wx hx
        have h3 := ihy wy hy
        simp [Expr.eval, hx, hy] at hv
        simp [Expr.eval, h2, h3, hv]
      | error e2 => simp [Expr.eval, hx, hy] at hv
    | error e2 => simp [Expr.eval, hx] at hv
  | deref x ih =>
    intro v hv
    simp [Expr.eval] at hv

/-- The bare-expression rewrite reads the constants as given and the
scope only through evaluation, so it is monotone in the scope. -/
theorem rewriteExpr_mono {consts d1 d2 : Dict} (h : ScopeExt d1 d2) (e : Expr)
    {ov : OpOrVal} (hr : rewriteExpr consts d1 e = .ok ov) :
    rewriteExpr consts d2 e = .ok ov := by
  cases e with
  | name n => simpa [rewriteExpr] using hr
  | val w =>
    cases hv : Expr.eval d1 (.val w) with
    | ok u =>
      have h2 := eval_mono h _ u hv
      simp [rewriteExpr, hv] at hr
      subst hr
      simp [rewriteExpr, h2]
    | error e2 => simp [rewriteExpr, hv] at hr
  | unExpr op x =>
    cases hv : Expr.eval d1 (.unExpr op x) with
    | ok u =>
      have h2 := eval_mono h _ u hv
      simp [rewriteExpr, hv] at hr
      subst hr
      simp [rewriteExpr, h2]
    | error e2 => simp [rewriteExpr, hv] at hr
  | binExpr x op y =>
    cases hv : Expr.eval d1 (.binExpr x op y) with
    | ok u =>
      have h2 := eval_mono h _ u hv
      simp [rewriteExpr, hv] at hr
      subst hr
      simp [rewriteExpr, h2]
    | error e2 => simp [rewriteExpr, hv] at hr
  | deref x =>
    cases hv : Expr.eval d1 (.deref x) with
    | ok u => simp [Expr.eval] at hv
    | error e2 => simp [rewriteExpr, hv] at hr

/-- One `scan` step keeps the constants, keeps the scope equal to the
labels prefixed to the constants, and only extends the scope. -/
theorem scanStep_inv {t : Target} {st st2 : CSt} {s : Stmt}
    (hs : scanStep t st s = .ok st2)
    (hinv : st.scope = st.labels ++ st.consts) :
    st2.consts = st.consts ∧ st2.scope = st2.labels ++ st2.consts ∧
      ScopeExt st.scope st2.scope := by
  cases s with
  | const n v =>
    simp [scanStep] at hs
    subst hs
    exact ⟨rfl, hinv, fun m w hw => hw⟩
  | label n =>
    by_cases h1 : (instrGet t n).isSome
    · simp [scanStep, h1] at hs
    · by_cases h2 : (dictGet st.labels n).isSome
      · simp [scanStep, h1, h2] at hs
      · by_cases h3 : (dictGet st.consts n).isSome
        · simp [scanStep, h1, h2, h3] at hs
        · simp [scanStep, h1, h2, h3] at hs
          rw [Option.not_isSome_iff_eq_none] at h2 h3
          subst hs
          refine ⟨rfl, ?_, ?_⟩
          · simp [dictPut, hinv]
          · intro m w hw
            have hm : m ≠ n := by
              intro hEq
              subst hEq
              rw [hinv, dictGet_append, h2] at hw
              simp [h3] at hw
            simpa [dictPut, dictGet, List.find?_cons, Ne.symm hm] using hw
  | offset off rel =>
    cases hro : resolveOffset t st.loc off rel with
    | error e2 => simp [scanStep, hro] at hs
    | ok ol =>
      cases hli : st.lastInst with
      | none => simp [scanStep, hro, hli] at hs
      | some li =>
        by_cases hf : Int.fmod (ol - st.loc) ((li.size : Int)) = 0
        · simp [scanStep, hro, hli, hf] at hs
          subst hs
          exact ⟨rfl, hinv, fun m w hw => hw⟩
        · cases hio : li.isOperation <;> simp [scanStep, hro, hli, hf, hio] at hs
  | op mn args =>
    by_cases hloc : st.loc > t.maxAddr
    · simp [scanStep, hloc] at hs
    · cases hgi : getInstruction t st.scope (.opS mn args) with
      | error e2 => simp [scanStep, hloc, hgi] at hs
      | ok inst =>
        simp [scanStep, hloc, hgi] at hs
        subst hs
        exact ⟨rfl, hinv, fun m w hw => hw⟩
  | expr e =>
    by_cases hloc : st.loc > t.maxAddr
    · simp [scanStep, hloc] at hs
    · cases hrw : rewriteExpr st.consts st.scope e with
      | error e2 => simp [scanStep, hloc, hrw] at hs
      | ok ov =>
        cases hgi : getInstruction t st.scope ov with
        | error e2 => simp [scanStep, hloc, hrw, hgi] at hs
        | ok inst =>
          simp [scanStep, hloc, hrw, hgi] at hs
          subst hs
          exact ⟨rfl, hinv, fun m w hw => hw⟩

/-- The `scan` walk preserves the constants and the scope invariant and
only extends the scope. -/
theorem scanWalk_inv {t : Target} :
    ∀ (stmts : List Stmt) (st stF : CSt),
      scanWalk t stmts st = .ok stF →
      st.scope = st.labels ++ st.consts →
      stF.consts = st.consts ∧ stF.scope = stF.labels ++ stF.consts ∧
        ScopeExt st.scope stF.scope
  | [], st, stF, hw, hinv => by
    simp [scanWalk] at hw
    subst hw
    exact ⟨rfl, hinv, fun m v h => h⟩
  | s :: rest, st, stF, hw, hinv => by
    cases hstep : scanStep t st s with
    | error e2 => simp [scanWalk, hstep] at hw
    | ok st2 =>
      simp [scanWalk, hstep] at hw
      obtain ⟨h1, h2, h3⟩ := scanStep_inv hstep hinv
      obtain ⟨g1, g2, g3⟩ := scanWalk_inv rest st2 stF hw h2
      exact ⟨g1.trans h1, g2, fun m v h => g3 m v (h3 m v h)⟩

/-- Every SAP mnemonic is a constant (of one byte), a SAP unary or
`word`. -/
theorem sapKindsOk {mn : String} {k : InstKind}
    (h : instrGet sapTarget mn = some k) :
    (∃ c, k = .constK c ∧ byteLength c = 1) ∨ (∃ c, k = .sapUK c) ∨
      k = .wordK := by
  rw [instrGet, Option.map_eq_some'] at h
  obtain ⟨p, hf, hk⟩ := h
  have hmem : p ∈ sapInstrs := List.mem_of_find?_eq_some hf
  subst hk
  simp [sapInstrs] at hmem
  rcases hmem with rfl|rfl|rfl|rfl|rfl|rfl|rfl|rfl|rfl|rfl|rfl|rfl <;>
    first
      | exact Or.inl ⟨_, rfl, by decide⟩
      | exact Or.inr (Or.inl ⟨_, rfl⟩)
      | exact Or.inr (Or.inr rfl)

/-- Instruction construction for an SAP `Op` statement does not read the
scope, and the constructed instruction encodes to exactly `size`
values. -/
theorem getInstruction_sap_op {scope1 : Dict} (scope2 : Dict) {mn : String}
    {args : List Expr} {inst : Inst}
    (h : getInstruction sapTarget scope1 (.opS mn args) = .ok inst) :
    getInstruction sapTarget scope2 (.opS mn args) = .ok inst ∧
      instEncLenOk inst := by
  cases hf : instrGet sapTarget mn with
  | none => simp [getInstruction, hf] at h
  | some k =>
    rcases sapKindsOk hf with ⟨c, rfl, hc⟩ | ⟨c, rfl⟩ | rfl
    · cases args with
      | nil =>
        simp [getInstruction, hf] at h
        subst h
        refine ⟨by simp [getInstruction, hf], ?_⟩
        intro labels scope bs hb
        simp [encodeInst] at hb
        subst hb
        simp [Inst.size, hc]
      | cons a r => simp [getInstruction, hf] at h
    · rcases args with _ | ⟨a, _ | ⟨b, r⟩⟩
      · simp [getInstruction, hf] at h
      · simp [getInstruction, hf] at h
        subst h
        refine ⟨by simp [getInstruction, hf], ?_⟩
        intro labels scope bs hb
        cases hev : Expr.eval scope a with
        | error e2 => simp [encodeInst, hev] at hb
        | ok v =>
          simp [encodeInst, hev] at hb
          by_cases hv : v > sapTarget.maxAddr
          · simp [hv] at hb
          · simp [hv] at hb
            subst hb
            simp [Inst.size]
      · simp [getInstruction, hf] at h
    · rcases args with _ | ⟨a, _ | ⟨b, r⟩⟩
      · simp [getInstruction, hf] at h
      · simp [getInstruction, hf] at h
        subst h
        refine ⟨by simp [getInstruction, hf], ?_⟩
        intro labels scope bs hb
        cases hev : Expr.eval labels a with
        | error e2 => simp [encodeInst, hev] at hb
        | ok v =>
          simp [encodeInst, hev] at hb
          by_cases hv : v > 65535
          · simp [hv] at hb
          · simp [hv] at hb
            subst hb
            simp [Inst.size]
      · simp [getInstruction, hf] at h

/-- One statement of pass 2, run at the pass-1 location with the final
mappings, emits exactly the location advance of the corresponding pass-1
step and tracks its location and last instruction. -/
theorem stepSim {st st2 stF : CSt} {s : Stmt}
    (hstep : scanStep sapTarget st s = .ok st2)
    (_hinv : st.scope = st.labels ++ st.consts)
    (hili : ∀ li, st.lastInst = some li → instEncLenOk li)
    (hext : ScopeExt st.scope stF.scope)
    (hconst : stF.consts = st.consts)
    (hvalS : valueStmtOk stF.consts stF.scope s = true)
    {bs1 : List Int} {loc2 : Int} {li2 : Option Inst}
    (hit : iterStep sapTarget stF.labels stF.consts stF.scope st.loc st.lastInst
      s = .ok (bs1, loc2, li2)) :
    (bs1.length : Int) = st2.loc - st.loc ∧ loc2 = st2.loc ∧
      li2 = st2.lastInst ∧ ∀ li, st2.lastInst = some li → instEncLenOk li := by
  cases s with
  | const n v =>
    simp [scanStep] at hstep
    simp [iterStep] at hit
    obtain ⟨hb, hl, hi⟩ := hit
    subst hb
    subst hl
    subst hi
    subst hstep
    exact ⟨by simp, rfl, rfl, hili⟩
  | label n =>
    by_cases h1 : (instrGet sapTarget n).isSome
    · simp [scanStep, h1] at hstep
    · by_cases h2 : (dictGet st.labels n).isSome
      · simp [scanStep, h1, h2] at hstep
      · by_cases h3 : (dictGet st.consts n).isSome
        · simp [scanStep, h1, h2, h3] at hstep
        · simp [scanStep, h1, h2, h3] at hstep
          simp [iterStep] at hit
          obtain ⟨hb, hl, hi⟩ := hit
          subst hb
          subst hl
          subst hi
          subst hstep
          exact ⟨by simp, rfl, rfl, hili⟩
  | op mn args =>
    by_cases hloc : st.loc > sapTarget.maxAddr
    · simp [scanStep, hloc] at hstep
    · cases hgi : getInstruction sapTarget st.scope (.opS mn args) with
      | error e2 => simp [scanStep, hloc, hgi] at hstep
      | ok inst =>
        simp [scanStep, hloc, hgi] at hstep
        obtain ⟨hgi2, henc⟩ := getInstruction_sap_op stF.scope hgi
        cases hev : encodeInst sapTarget stF.labels stF.scope inst with
        | error e2 => simp [iterStep, hgi2, hev] at hit
        | ok ebs =>
          simp [iterStep, hgi2, hev] at hit
          obtain ⟨hb, hl, hi⟩ := hit
          subst hb
          subst hl
          subst hi
          subst hstep
          refine ⟨?_, rfl, rfl, ?_⟩
          · have hle := henc stF.labels stF.scope ebs hev
            simp [hle]
          · intro li hli
            have hli2 : some inst = some li := hli
            injection hli2 with hEq
            subst hEq
            exact henc
  | expr e =>
    by_cases hloc : st.loc > sapTarget.maxAddr
    · simp [scanStep, hloc] at hstep
    · cases hrw : rewriteExpr st.consts st.scope e with
      | error e2 => simp [scanStep, hloc, hrw] at hstep
      | ok ov =>
        cases hgi : getInstruction sapTarget st.scope ov with
        | error e2 => simp [scanStep, hloc, hrw, hgi] at hstep
        | ok inst =>
          simp [scanStep, hloc, hrw, hgi] at hstep
          have hrw2 : rewriteExpr stF.consts stF.scope e = .ok ov := by
            rw [hconst]
            exact rewriteExpr_mono hext e hrw
          have hkey : getInstruction sapTarget stF.scope ov = .ok inst ∧
              instEncLenOk inst := by
            cases ov with
            | opS mn2 args2 => exact getInstruction_sap_op stF.scope hgi
            | valS v =>
              by_cases hv : v > sapTarget.maxVal
              · simp [getInstruction, hv] at hgi
              · simp [getInstruction, hv] at hgi ⊢
                subst hgi
                have hb1 : byteLength v = 1 := by
                  simp [valueStmtOk, hrw2] at hvalS
                  exact hvalS
                refine ⟨rfl, ?_⟩
                intro labels scope bs hb
                simp [encodeInst] at hb
                subst hb
                simp [Inst.size, hb1]
          obtain ⟨hgi2, henc⟩ := hkey
          cases hev : encodeInst sapTarget stF.labels stF.scope inst with
          | error e2 => simp [iterStep, hrw2, hgi2, hev] at hit
          | ok ebs =>
            simp [iterStep, hrw2, hgi2, hev] at hit
            obtain ⟨hb, hl, hi⟩ := hit
            subst hb
            subst hl
            subst hi
            subst hstep
            refine ⟨?_, rfl, rfl, ?_⟩
            · have hle := henc stF.labels stF.scope ebs hev
              simp [hle]
            · intro li hli
              have hli2 : some inst = some li := hli
              injection hli2 with hEq
              subst hEq
              exact henc
  | offset off rel =>
    cases hro : resolveOffset sapTarget st.loc off rel with
    | error e2 => simp [scanStep, hro] at hstep
    | ok ol =>
      cases hli : st.lastInst with
      | none => simp [scanStep, hro, hli] at hstep
      | some li =>
        by_cases hf : Int.fmod (ol - st.loc) ((li.size : Int)) = 0
        · simp [scanStep, hro, hli, hf] at hstep
          have hge : st.loc ≤ ol := by
            simp only [resolveOffset] at hro
            split_ifs at hro <;>
              first
                | (simp at hro; done)
                | (simp only [Except.ok.injEq] at hro; omega)
          cases hpc : padCopies ((Int.fdiv (ol - st.loc) ((li.size : Int))).toNat)
              (encodeInst sapTarget stF.labels stF.scope li) with
          | error e2 => simp [iterStep, hro, hli, hpc] at hit
          | ok pbs =>
            simp [iterStep, hro, hli, hpc] at hit
            obtain ⟨hb, hl, hi⟩ := hit
            subst hb
            subst hl
            subst hi
            subst hstep
            have hLI : ∀ li3 : Inst, (some li : Option Inst) = some li3 →
                instEncLenOk li3 := by
              intro li3 h3
              injection h3 with h5
              subst h5
              exact hili li hli
            refine ⟨?_, rfl, rfl, fun li3 h3 => hLI li3 h3⟩
            have hd := Int.fmod_def (ol - st.loc) ((li.size : Int))
            cases hn : (Int.fdiv (ol - st.loc) ((li.size : Int))).toNat with
            | zero =>
              rw [hn] at hpc
              simp [padCopies] at hpc
              subst hpc
              have hsz : (0 : Int) ≤ ((li.size : Int)) := Int.natCast_nonneg _
              have hFle : Int.fdiv (ol - st.loc) ((li.size : Int)) ≤ 0 := by omega
              have hmul : ((li.size : Int)) *
                  Int.fdiv (ol - st.loc) ((li.size : Int)) ≤ 0 :=
                mul_nonpos_of_nonneg_of_nonpos hsz hFle
              simp
              omega
            | succ m =>
              rw [hn] at hpc
              cases henc2 : encodeInst sapTarget stF.labels stF.scope li with
              | error e2 => simp [padCopies, henc2] at hpc
              | ok ebs =>
                simp [padCopies, henc2] at hpc
                subst hpc
                have hlen := hili li hli stF.labels stF.scope ebs henc2
                have hF : Int.fdiv (ol - st.loc) ((li.size : Int)) =
                    ((m + 1 : Nat) : Int) := by omega
                have hP : ol - st.loc = ((li.size : Int)) *
                    Int.fdiv (ol - st.loc) ((li.size : Int)) := by omega
                rw [hP, hF]
                simp [List.length_flatten, List.map_replicate, List.sum_replicate,
                  smul_eq_mul, hlen]
                ring
        · cases hio : li.isOperation <;>
            simp [scanStep, hro, hli, hf, hio] at hstep

/-- Pass 2, started at the pass-1 location and last instruction with the
final mappings, emits exactly the location distance covered by the
remaining pass-1 walk (SAP target, single-byte bare values). -/
theorem scanIterSim :
    ∀ (stmts : List Stmt) (st stF : CSt) (bs : List Int),
      scanWalk sapTarget stmts st = .ok stF →
      st.scope = st.labels ++ st.consts →
      (∀ li, st.lastInst = some li → instEncLenOk li) →
      valueSizesOk stF.consts stF.scope stmts = true →
      iterWalk sapTarget stF.labels stF.consts stF.scope stmts st.loc
        st.lastInst = .ok bs →
      (bs.length : Int) = stF.loc - st.loc
  | [], st, stF, bs, hscan, hinv, hili, hval, hiter => by
    simp [scanWalk] at hscan
    subst hscan
    simp [iterWalk] at hiter
    subst hiter
    simp
  | s :: rest, st, stF, bs, hscan, hinv, hili, hval, hiter => by
    cases hstep : scanStep sapTarget st s with
    | error e2 => simp [scanWalk, hstep] at hscan
    | ok st2 =>
      simp [scanWalk, hstep] at hscan
      obtain ⟨hc1, hinv2, hext1⟩ := scanStep_inv hstep hinv
      obtain ⟨hcF, hinvF, hextF⟩ := scanWalk_inv rest st2 stF hscan hinv2
      rw [valueSizesOk, List.all_cons, Bool.and_eq_true] at hval
      obtain ⟨hvs, hvr⟩ := hval
      cases hit : iterStep sapTarget stF.labels stF.consts stF.scope st.loc
          st.lastInst s with
      | error e2 => simp [iterWalk, hit] at hiter
      | ok out =>
        obtain ⟨bs1, loc2, li2⟩ := out
        simp [iterWalk, hit] at hiter
        cases hit2 : iterWalk sapTarget stF.labels stF.consts stF.scope rest
            loc2 li2 with
        | error e2 => simp [hit2] at hiter
        | ok bs2 =>
          simp [hit2] at hiter
          obtain ⟨hl1, hl2, hl3, hili2⟩ := stepSim hstep hinv hili
            (fun n v hv => hextF n v (hext1 n v hv)) (hcF.trans hc1) hvs hit
          rw [hl2, hl3] at hit2
          have hrest := scanIterSim rest st2 stF bs2 hscan hinv2 hili2 hvr hit2
          rw [← hiter]
          push_cast [List.length_append]
          omega

end Wes

/-- C10 counterexample: the single-statement program `-256` scans
successfully, but its bare value has byte length 2, so pass 1 ends at
location 2 while pass 2 emits the single value -256: the claimed size-1
property and the output-length equality both fail. -/
theorem Wes.c10_counterexample :
    Wes.parseSrc "-256" = .ok [.expr (.unExpr "-" (.val 256))] ∧
    Wes.sapScan "-256" =
      .ok { labels := [], consts := [], scope := [], loc := 2,
            lastInst := some (.value (-256)) } ∧
    Wes.sapAssemble "-256" = .ok [-256] ∧
    (Wes.Inst.value (-256)).size = 2 ∧
    ¬ ((([-256] : List Int).length : Int) = 2) := by
  exact ⟨by decide, by decide, by decide, by decide, by decide⟩

/-- C10 (amended): for every SAP program accepted by pass 1 whose bare
values all fit one byte - `Value.validate` bounds them above by
`max_val = 255` but not below, so negative values below -255 get byte
length 2 and break the claim (see the counterexample) - a successful
pass 2 yields exactly as many values as the final pass-1 location
counter: each instruction encodes to exactly `size` values and each
offset contributes exactly its gap in padding values. -/
theorem Wes.c10_output_length (stmts : List Wes.Stmt) (stF : Wes.CSt)
    (bs : List Int)
    (hscan : Wes.scan Wes.sapTarget stmts = .ok stF)
    (hval : Wes.valueSizesOk stF.consts stF.scope stmts = true)
    (hrun : Wes.compileRun Wes.sapTarget stmts = .ok bs) :
    (bs.length : Int) = stF.loc := by
  simp only [Wes.compileRun, hscan] at hrun
  simp only [Wes.scan] at hscan
  cases hrc : Wes.resolveConsts Wes.sapTarget stmts with
  | error e2 => simp [hrc] at hscan
  | ok consts =>
    rw [hrc] at hscan
    have hsim := Wes.scanIterSim stmts
      { labels := [], consts := consts, scope := consts, loc := 0,
        lastInst := none }
      stF bs hscan (by simp) (fun li h => by cases h) hval hrun
    simpa using hsim

/-- C10 witness: `lda 1` followed by the bare value `2` scans to
location 2 and assembles to the two values `[17, 2]`. -/
theorem Wes.c10_output_length_witness :
    ((([17, 2] : List Int).length : Int) = (2 : Int)) :=
  Wes.c10_output_length [.op "lda" [.val 1], .expr (.val 2)]
    { labels := [], consts := [], scope := [], loc := 2,
      lastInst := some (.value 2) }
    [17, 2] (by decide) (by decide) (by decide)

namespace Wes

/-! ## Ground-term facts and unification traces for C4 -/

@[simp] theorem isVar_var (n : String) : (PTerm.var n).isVar = true := rfl

@[simp] theorem isVar_pstr (s : String) : (PTerm.pstr s).isVar = false := rfl

@[simp] theorem isVar_pint (v : Int) : (PTerm.pint v).isVar = false := rfl

@[simp] theorem isVar_name (a : PTerm) : (PTerm.name a).isVar = false := rfl

@[simp] theorem isVar_val (a : PTerm) : (PTerm.val a).isVar = false := rfl

@[simp] theorem isVar_unExpr (a b : PTerm) : (PTerm.unExpr a b).isVar = false := rfl

@[simp] theorem isVar_binExpr (a b c : PTerm) :
    (PTerm.binExpr a b c).isVar = false := rfl

@[simp] theorem isVar_deref (a : PTerm) : (PTerm.deref a).isVar = false := rfl

@[simp] theorem isPat_var (n : String) : (PTerm.var n).isPat = false := rfl

@[simp] theorem isPat_pstr (s : String) : (PTerm.pstr s).isPat = false := rfl

@[simp] theorem isPat_pint (v : Int) : (PTerm.pint v).isPat = false := rfl

@[simp] theorem isPat_name (a : PTerm) : (PTerm.name a).isPat = true := rfl

@[simp] theorem isPat_val (a : PTerm) : (PTerm.val a).isPat = true := rfl

@[simp] theorem isPat_unExpr (a b : PTerm) : (PTerm.unExpr a b).isPat = true := rfl

@[simp] theorem isPat_binExpr (a b c : PTerm) :
    (PTerm.binExpr a b c).isPat = true := rfl

@[simp] theorem isPat_deref (a : PTerm) : (PTerm.deref a).isPat = true := rfl

@[simp] theorem occursT_var_pstr (n s : String) :
    occursT (.var n) (.pstr s) = false := by
  simp [occursT]

@[simp] theorem dp_deref_deref (a b : PTerm) :
    decomposePair (.deref a) (.deref b) = some [(a, b)] := rfl

@[simp] theorem dp_name_name (a b : PTerm) :
    decomposePair (.name a) (.name b) = some [(a, b)] := rfl

@[simp] theorem dp_val_val (a b : PTerm) :
    decomposePair (.val a) (.val b) = some [(a, b)] := rfl

@[simp] theorem dp_un_un (a b c d : PTerm) :
    decomposePair (.unExpr a b) (.unExpr c d) = some [(a, c), (b, d)] := rfl

@[simp] theorem dp_bin_bin (a b c d e g : PTerm) :
    decomposePair (.binExpr a b c) (.binExpr d e g) =
      some [(a, d), (b, e), (c, g)] := rfl

@[simp] theorem dp_name_deref (a b : PTerm) :
    decomposePair (.name a) (.deref b) = none := rfl

@[simp] theorem dp_val_deref (a b : PTerm) :
    decomposePair (.val a) (.deref b) = none := rfl

@[simp] theorem dp_un_deref (a b c : PTerm) :
    decomposePair (.unExpr a b) (.deref c) = none := rfl

@[simp] theorem dp_bin_deref (a b c d : PTerm) :
    decomposePair (.binExpr a b c) (.deref d) = none := rfl

@[simp] theorem dp_deref_name (a b : PTerm) :
    decomposePair (.deref a) (.name b) = none := rfl

@[simp] theorem dp_val_name (a b : PTerm) :
    decomposePair (.val a) (.name b) = none := rfl

@[simp] theorem dp_un_name (a b c : PTerm) :
    decomposePair (.unExpr a b) (.name c) = none := rfl

@[simp] theorem dp_bin_name (a b c d : PTerm) :
    decomposePair (.binExpr a b c) (.name d) = none := rfl

@[simp] theorem dp_name_bin (a b c d : PTerm) :
    decomposePair (.name a) (.binExpr b c d) = none := rfl

@[simp] theorem dp_val_bin (a b c d : PTerm) :
    decomposePair (.val a) (.binExpr b c d) = none := rfl

@[simp] theorem dp_un_bin (a b c d e : PTerm) :
    decomposePair (.unExpr a b) (.binExpr c d e) = none := rfl

@[simp] theorem dp_deref_bin (a b c d : PTerm) :
    decomposePair (.deref a) (.binExpr b c d) = none := rfl

/-- An embedded AST expression is a pattern node. -/
@[simp] theorem exprToTerm_isPat (e : Expr) : (exprToTerm e).isPat = true := by
  cases e <;> rfl

/-- An embedded AST expression is not a variable. -/
@[simp] theorem exprToTerm_isVar (e : Expr) : (exprToTerm e).isVar = false := by
  cases e <;> rfl

/-- Embedded AST expressions are ground: no variable occurs in them. -/
@[simp] theorem exprToTerm_noVar (e : Expr) (n : String) :
    occursT (.var n) (exprToTerm e) = false := by
  induction e <;> simp [exprToTerm, occursT, *]

@[simp] theorem exprToTerm_ne_var (e : Expr) (n : String) :
    exprToTerm e ≠ .var n := by
  cases e <;> simp [exprToTerm]

@[simp] theorem var_ne_exprToTerm (e : Expr) (n : String) :
    PTerm.var n ≠ exprToTerm e := by
  cases e <;> simp [exprToTerm]

/-- The `IMM` template `T` unifies with every ground argument, binding
`T` to the whole argument after one swap and one miss. -/
theorem unify_imm_succ (e : Expr) :
    unify (exprToTerm e) (.var "T") = some (some [(.var "T", exprToTerm e)]) := by
  simp [unify, unifyLoop, occursEqs]

/-- A non-`Deref` argument conflicts with every `Deref`-headed template
at the first decompose step. -/
theorem unify_clash0 (e : Expr) (p : PTerm)
    (hd : decomposePair (exprToTerm e) (.deref p) = none) :
    unify (exprToTerm e) (.deref p) = some none := by
  have hne : exprToTerm e ≠ .deref p := by
    intro h
    rw [h] at hd
    simp at hd
  simp [unify, uFuel, unifyLoop, hd, hne]

/-- A `Deref` argument whose inner node conflicts with the inner pattern
fails after peeling one `Deref`. -/
theorem unify_clash1 (e1 : Expr) (p : PTerm) (hp : p.isPat = true)
    (hd : decomposePair (exprToTerm e1) p = none) :
    unify (.deref (exprToTerm e1)) (.deref p) = some none := by
  have hne : exprToTerm e1 ≠ p := by
    intro h
    rw [← h] at hd
    cases e1 <;> simp [exprToTerm] at hd
  simp [unify, uFuel, unifyLoop, hp, hd, hne]

/-- A double-`Deref` argument whose innermost node conflicts with the
innermost pattern fails after peeling two `Deref`s. -/
theorem unify_clash2 (e2 : Expr) (p : PTerm) (hp : p.isPat = true)
    (hd : decomposePair (exprToTerm e2) p = none) :
    unify (.deref (.deref (exprToTerm e2))) (.deref (.deref p)) = some none := by
  have hne : exprToTerm e2 ≠ p := by
    intro h
    rw [← h] at hd
    cases e2 <;> simp [exprToTerm] at hd
  simp [unify, uFuel, unifyLoop, hp, hd, hne]

/-- The `DIR` template `[T]` matches every `Deref` argument, binding `T`
to the inner node. -/
theorem unify_dir_succ (e1 : Expr) :
    unify (.deref (exprToTerm e1)) (.deref (.var "T")) =
      some (some [(.var "T", exprToTerm e1)]) := by
  simp [unify, unifyLoop, decomposePair, occursEqs]

/-- The `IND` template `[[T]]` matches every double-`Deref` argument. -/
theorem unify_ind_succ (e2 : Expr) :
    unify (.deref (.deref (exprToTerm e2))) (.deref (.deref (.var "T"))) =
      some (some [(.var "T", exprToTerm e2)]) := by
  simp [unify, unifyLoop, decomposePair, occursEqs]

/-- The `IDX_IND` template `[[T + x]]` matches `[[a + x]]`. -/
theorem unify_idxInd_succ (a : Expr) :
    unify (.deref (.deref (.binExpr (exprToTerm a) (.pstr "+")
        (.name (.pstr "x")))))
      (.deref (.deref (.binExpr (.var "T") (.pstr "+") (.name (.pstr "x"))))) =
      some (some [(.var "T", exprToTerm a)]) := by
  simp [unify, unifyLoop, decomposePair, occursEqs]

/-- `[[a op b]]` with `op ≠ +` conflicts with `IDX_IND` at the operator
leaves. -/
theorem unify_idxInd_op (a b : Expr) (op : String) (hop : op ≠ "+") :
    unify (.deref (.deref (.binExpr (exprToTerm a) (.pstr op) (exprToTerm b))))
      (.deref (.deref (.binExpr (.var "T") (.pstr "+") (.name (.pstr "x"))))) =
      some none := by
  simp [unify, unifyLoop, decomposePair, occursEqs, hop]

/-- `[[a + s]]` with a name `s ≠ x` conflicts with `IDX_IND` at the name
parameter leaves. -/
theorem unify_idxInd_name (a : Expr) (s : String) (hs : s ≠ "x") :
    unify (.deref (.deref (.binExpr (exprToTerm a) (.pstr "+")
        (.name (.pstr s)))))
      (.deref (.deref (.binExpr (.var "T") (.pstr "+") (.name (.pstr "x"))))) =
      some none := by
  simp [unify, unifyLoop, decomposePair, occursEqs, hs]

/-- `[[a + b]]` with a non-name right operand conflicts with `IDX_IND`
when decomposing against `Name("x")`. -/
theorem unify_idxInd_nonname (a b : Expr)
    (hd : decomposePair (exprToTerm b) (.name (.pstr "x")) = none) :
    unify (.deref (.deref (.binExpr (exprToTerm a) (.pstr "+") (exprToTerm b))))
      (.deref (.deref (.binExpr (.var "T") (.pstr "+") (.name (.pstr "x"))))) =
      some none := by
  have hne : exprToTerm b ≠ .name (.pstr "x") := by
    intro h
    rw [h] at hd
    simp at hd
  simp [unify, uFuel, unifyLoop, occursEqs, hd, hne]

/-- `[a op b]` with `op ≠ +` conflicts with the `[T + w]` templates at
the operator leaves. -/
theorem unify_idx_op (a b : Expr) (op w : String) (hop : op ≠ "+") :
    unify (.deref (.binExpr (exprToTerm a) (.pstr op) (exprToTerm b)))
      (.deref (.binExpr (.var "T") (.pstr "+") (.name (.pstr w)))) =
      some none := by
  simp [unify, unifyLoop, decomposePair, occursEqs, hop]

/-- `[a + s]` with a name `s ≠ w` conflicts with `[T + w]` at the name
parameter leaves. -/
theorem unify_idx_name (a : Expr) (s w : String) (hs : s ≠ w) :
    unify (.deref (.binExpr (exprToTerm a) (.pstr "+") (.name (.pstr s))))
      (.deref (.binExpr (.var "T") (.pstr "+") (.name (.pstr w)))) =
      some none := by
  simp [unify, unifyLoop, decomposePair, occursEqs, hs]

/-- `[a + b]` with a non-name right operand conflicts with `[T + w]`
when decomposing against `Name(w)`. -/
theorem unify_idx_nonname (a b : Expr) (w : String)
    (hd : decomposePair (exprToTerm b) (.name (.pstr w)) = none) :
    unify (.deref (.binExpr (exprToTerm a) (.pstr "+") (exprToTerm b)))
      (.deref (.binExpr (.var "T") (.pstr "+") (.name (.pstr w)))) =
      some none := by
  have hne : exprToTerm b ≠ .name (.pstr w) := by
    intro h
    rw [h] at hd
    simp at hd
  simp [unify, uFuel, unifyLoop, occursEqs, hd, hne]

/-- `[a + w]` matches `[T + w]`, binding `T` to the left operand. -/
theorem unify_idx_succ (a : Expr) (w : String) :
    unify (.deref (.binExpr (exprToTerm a) (.pstr "+") (.name (.pstr w))))
      (.deref (.binExpr (.var "T") (.pstr "+") (.name (.pstr w)))) =
      some (some [(.var "T", exprToTerm a)]) := by
  simp [unify, unifyLoop, decomposePair, occursEqs]

/-- A left operand that is not a `Deref` conflicts with the `IND_Y`
template `[[T] + y]` when decomposing against `[T]`. -/
theorem unify_indY_ga (a b : Expr) (op : String)
    (hd : decomposePair (exprToTerm a) (.deref (.var "T")) = none) :
    unify (.deref (.binExpr (exprToTerm a) (.pstr op) (exprToTerm b)))
      (.deref (.binExpr (.deref (.var "T")) (.pstr "+") (.name (.pstr "y")))) =
      some none := by
  have hne : exprToTerm a ≠ .deref (.var "T") := by
    intro h
    rw [h] at hd
    simp at hd
  simp [unify, uFuel, unifyLoop, occursEqs, hd, hne]

/-- `[[c] op b]` with `op ≠ +` conflicts with `IND_Y` at the operator
leaves. -/
theorem unify_indY_op (c b : Expr) (op : String) (hop : op ≠ "+") :
    unify (.deref (.binExpr (.deref (exprToTerm c)) (.pstr op) (exprToTerm b)))
      (.deref (.binExpr (.deref (.var "T")) (.pstr "+") (.name (.pstr "y")))) =
      some none := by
  simp [unify, unifyLoop, decomposePair, occursEqs, hop]

/-- `[[c] + s]` with a name `s ≠ y` conflicts with `IND_Y` at the name
parameter leaves. -/
theorem unify_indY_name (c : Expr) (s : String) (hs : s ≠ "y") :
    unify (.deref (.binExpr (.deref (exprToTerm c)) (.pstr "+")
        (.name (.pstr s))))
      (.deref (.binExpr (.deref (.var "T")) (.pstr "+") (.name (.pstr "y")))) =
      some none := by
  simp [unify, unifyLoop, decomposePair, occursEqs, hs]

/-- `[[c] + b]` with a non-name right operand conflicts with `IND_Y`
when decomposing against `Name("y")`. -/
theorem unify_indY_nonname (c b : Expr)
    (hd : decomposePair (exprToTerm b) (.name (.pstr "y")) = none) :
    unify (.deref (.binExpr (.deref (exprToTerm c)) (.pstr "+") (exprToTerm b)))
      (.deref (.binExpr (.deref (.var "T")) (.pstr "+") (.name (.pstr "y")))) =
      some none := by
  have hne : exprToTerm b ≠ .name (.pstr "y") := by
    intro h
    rw [h] at hd
    simp at hd
  simp [unify, uFuel, unifyLoop, occursEqs, hd, hne]

/-- `[[c] + y]` matches `IND_Y`, binding `T` to the inner node of the
left operand. -/
theorem unify_indY_succ (c : Expr) :
    unify (.deref (.binExpr (.deref (exprToTerm c)) (.pstr "+")
        (.name (.pstr "y"))))
      (.deref (.binExpr (.deref (.var "T")) (.pstr "+") (.name (.pstr "y")))) =
      some (some [(.var "T", exprToTerm c)]) := by
  simp [unify, unifyLoop, decomposePair, occursEqs]

end Wes

namespace Wes

/-- The statement of the matcher claim for one argument expression: some
template at index `i` of the declaration order succeeds with `T` bound,
`Format.match` returns exactly that format and binding, and every
earlier template fails with a `PatternError`. -/
def C4Stmt (e : Expr) : Prop :=
  ∃ (i : Nat) (fmt : Fmt) (t : PTerm) (eqs : List (PTerm × PTerm)),
    fmtOrder[i]? = some fmt ∧
    unify (exprToTerm e) fmt.pattern = some (some eqs) ∧
    subsGet eqs (.var "T") = some t ∧
    formatMatch (exprToTerm e) = some (fmt, t) ∧
    ∀ f2 ∈ fmtOrder.take i, unify (exprToTerm e) f2.pattern = some none

theorem c4_at0 {e : Expr} {t : PTerm}
    (hs : unify (exprToTerm e) Fmt.idxInd.pattern =
      some (some [(.var "T", t)])) : C4Stmt e := by
  refine ⟨0, .idxInd, t, [(.var "T", t)], rfl, hs,
    by simp [subsGet, List.find?], ?_, ?_⟩
  · simp [formatMatch, formatMatchGo, fmtOrder, hs, subsGet, List.find?]
  · intro f2 hf2
    simp [fmtOrder] at hf2

theorem c4_at1 {e : Expr} {t : PTerm}
    (h0 : unify (exprToTerm e) Fmt.idxInd.pattern = some none)
    (hs : unify (exprToTerm e) Fmt.ind.pattern =
      some (some [(.var "T", t)])) : C4Stmt e := by
  refine ⟨1, .ind, t, [(.var "T", t)], rfl, hs,
    by simp [subsGet, List.find?], ?_, ?_⟩
  · simp [formatMatch, formatMatchGo, fmtOrder, h0, hs, subsGet, List.find?]
  · intro f2 hf2
    simp [fmtOrder] at hf2
    rcases hf2 with rfl
    exact h0

theorem c4_at2 {e : Expr} {t : PTerm}
    (h0 : unify (exprToTerm e) Fmt.idxInd.pattern = some none)
    (h1 : unify (exprToTerm e) Fmt.ind.pattern = some none)
    (hs : unify (exprToTerm e) Fmt.indY.pattern =
      some (some [(.var "T", t)])) : C4Stmt e := by
  refine ⟨2, .indY, t, [(.var "T", t)], rfl, hs,
    by simp [subsGet, List.find?], ?_, ?_⟩
  · simp [formatMatch, formatMatchGo, fmtOrder, h0, h1, hs, subsGet, List.find?]
  · intro f2 hf2
    simp [fmtOrder] at hf2
    rcases hf2 with rfl | rfl
    exacts [h0, h1]

theorem c4_at3 {e : Expr} {t : PTerm}
    (h0 : unify (exprToTerm e) Fmt.idxInd.pattern = some none)
    (h1 : unify (exprToTerm e) Fmt.ind.pattern = some none)
    (h2 : unify (exprToTerm e) Fmt.indY.pattern = some none)
    (hs : unify (exprToTerm e) Fmt.idxX.pattern =
      some (some [(.var "T", t)])) : C4Stmt e := by
  refine ⟨3, .idxX, t, [(.var "T", t)], rfl, hs,
    by simp [subsGet, List.find?], ?_, ?_⟩
  · simp [formatMatch, formatMatchGo, fmtOrder, h0, h1, h2, hs, subsGet,
      List.find?]
  · intro f2 hf2
    simp [fmtOrder] at hf2
    rcases hf2 with rfl | rfl | rfl
    exacts [h0, h1, h2]

theorem c4_at4 {e : Expr} {t : PTerm}
    (h0 : unify (exprToTerm e) Fmt.idxInd.pattern = some none)
    (h1 : unify (exprToTerm e) Fmt.ind.pattern = some none)
    (h2 : unify (exprToTerm e) Fmt.indY.pattern = some none)
    (h3 : unify (exprToTerm e) Fmt.idxX.pattern = some none)
    (hs : unify (exprToTerm e) Fmt.idxY.pattern =
      some (some [(.var "T", t)])) : C4Stmt e := by
  refine ⟨4, .idxY, t, [(.var "T", t)], rfl, hs,
    by simp [subsGet, List.find?], ?_, ?_⟩
  · simp [formatMatch, formatMatchGo, fmtOrder, h0, h1, h2, h3, hs, subsGet,
      List.find?]
  · intro f2 hf2
    simp [fmtOrder] at hf2
    rcases hf2 with rfl | rfl | rfl | rfl
    exacts [h0, h1, h2, h3]

theorem c4_at5 {e : Expr} {t : PTerm}
    (h0 : unify (exprToTerm e) Fmt.idxInd.pattern = some none)
    (h1 : unify (exprToTerm e) Fmt.ind.pattern = some none)
    (h2 : unify (exprToTerm e) Fmt.indY.pattern = some none)
    (h3 : unify (exprToTerm e) Fmt.idxX.pattern = some none)
    (h4 : unify (exprToTerm e) Fmt.idxY.pattern = some none)
    (hs : unify (exprToTerm e) Fmt.dir.pattern =
      some (some [(.var "T", t)])) : C4Stmt e := by
  refine ⟨5, .dir, t, [(.var "T", t)], rfl, hs,
    by simp [subsGet, List.find?], ?_, ?_⟩
  · simp [formatMatch, formatMatchGo, fmtOrder, h0, h1, h2, h3, h4, hs, subsGet,
      List.find?]
  · intro f2 hf2
    simp [fmtOrder] at hf2
    rcases hf2 with rfl | rfl | rfl | rfl | rfl
    exacts [h0, h1, h2, h3, h4]

theorem c4_at6 {e : Expr} {t : PTerm}
    (h0 : unify (exprToTerm e) Fmt.idxInd.pattern = some none)
    (h1 : unify (exprToTerm e) Fmt.ind.pattern = some none)
    (h2 : unify (exprToTerm e) Fmt.indY.pattern = some none)
    (h3 : unify (exprToTerm e) Fmt.idxX.pattern = some none)
    (h4 : unify (exprToTerm e) Fmt.idxY.pattern = some none)
    (h5 : unify (exprToTerm e) Fmt.dir.pattern = some none)
    (hs : unify (exprToTerm e) Fmt.imm.pattern =
      some (some [(.var "T", t)])) : C4Stmt e := by
  refine ⟨6, .imm, t, [(.var "T", t)], rfl, hs,
    by simp [subsGet, List.find?], ?_, ?_⟩
  · simp [formatMatch, formatMatchGo, fmtOrder, h0, h1, h2, h3, h4, h5, hs,
      subsGet, List.find?]
  · intro f2 hf2
    simp [fmtOrder] at hf2
    rcases hf2 with rfl | rfl | rfl | rfl | rfl | rfl
    exacts [h0, h1, h2, h3, h4, h5]

/-- A non-`Deref` argument falls through the six `Deref`-headed
templates to `IMM`. -/
theorem c4_imm_case (e : Expr)
    (hd : ∀ p, decomposePair (exprToTerm e) (.deref p) = none) : C4Stmt e :=
  c4_at6 (unify_clash0 e _ (hd _)) (unify_clash0 e _ (hd _))
    (unify_clash0 e _ (hd _)) (unify_clash0 e _ (hd _))
    (unify_clash0 e _ (hd _)) (unify_clash0 e _ (hd _)) (unify_imm_succ e)

/-- A `Deref` of a name, value or unary node matches `DIR` first. -/
theorem c4_dir_case (e1 : Expr)
    (hdD : ∀ q, decomposePair (exprToTerm e1) (.deref q) = none)
    (hdB : ∀ q r u, decomposePair (exprToTerm e1) (.binExpr q r u) = none) :
    C4Stmt (.deref e1) :=
  c4_at5
    (unify_clash1 e1 (.deref (.binExpr (.var "T") (.pstr "+")
      (.name (.pstr "x")))) rfl (hdD _))
    (unify_clash1 e1 (.deref (.var "T")) rfl (hdD _))
    (unify_clash1 e1 (.binExpr (.deref (.var "T")) (.pstr "+")
      (.name (.pstr "y"))) rfl (hdB _ _ _))
    (unify_clash1 e1 (.binExpr (.var "T") (.pstr "+")
      (.name (.pstr "x"))) rfl (hdB _ _ _))
    (unify_clash1 e1 (.binExpr (.var "T") (.pstr "+")
      (.name (.pstr "y"))) rfl (hdB _ _ _))
    (unify_dir_succ e1)

/-- A double `Deref` of a non-`BinExpr` node matches `IND` second. -/
theorem c4_ind_case (e2 : Expr)
    (hd : decomposePair (exprToTerm e2)
      (.binExpr (.var "T") (.pstr "+") (.name (.pstr "x"))) = none) :
    C4Stmt (.deref (.deref e2)) :=
  c4_at1
    (unify_clash2 e2 (.binExpr (.var "T") (.pstr "+")
      (.name (.pstr "x"))) rfl hd)
    (unify_ind_succ e2)

/-- A double `Deref` of a `BinExpr`: `IDX_IND` wins exactly for
`[[a + x]]`, else `IND`. -/
theorem c4_dd_bin (a b : Expr) (op : String) :
    C4Stmt (.deref (.deref (.binExpr a op b))) := by
  by_cases hop : op = "+"
  · subst hop
    cases b with
    | name s =>
      by_cases hs : s = "x"
      · subst hs
        exact c4_at0 (unify_idxInd_succ a)
      · exact c4_at1 (unify_idxInd_name a s hs)
          (unify_ind_succ (.binExpr a "+" (.name s)))
    | val v =>
      exact c4_at1 (unify_idxInd_nonname a _ rfl) (unify_ind_succ _)
    | unExpr o2 x =>
      exact c4_at1 (unify_idxInd_nonname a _ rfl) (unify_ind_succ _)
    | binExpr x o2 y =>
      exact c4_at1 (unify_idxInd_nonname a _ rfl) (unify_ind_succ _)
    | deref d =>
      exact c4_at1 (unify_idxInd_nonname a _ rfl) (unify_ind_succ _)
  · exact c4_at1 (unify_idxInd_op a b op hop) (unify_ind_succ _)

/-- `[a + s]` for a name `s`: `IND_Y` wins for `[[c] + y]`, `IDX_X` for
`s = x`, `IDX_Y` for `s = y` otherwise, `DIR` else. -/
theorem c4_bin_name (a : Expr) (s : String) :
    C4Stmt (.deref (.binExpr a "+" (.name s))) := by
  have h0 : unify (exprToTerm (.deref (.binExpr a "+" (.name s))))
      Fmt.idxInd.pattern = some none :=
    unify_clash1 (.binExpr a "+" (.name s)) (.deref (.binExpr (.var "T")
      (.pstr "+") (.name (.pstr "x")))) rfl rfl
  have h1 : unify (exprToTerm (.deref (.binExpr a "+" (.name s))))
      Fmt.ind.pattern = some none :=
    unify_clash1 (.binExpr a "+" (.name s)) (.deref (.var "T")) rfl rfl
  by_cases hx : s = "x"
  · subst hx
    have h2 : unify (exprToTerm (.deref (.binExpr a "+" (.name "x"))))
        Fmt.indY.pattern = some none := by
      cases a with
      | deref c => exact unify_indY_name c "x" (by decide)
      | name n => exact unify_indY_ga _ _ _ rfl
      | val v => exact unify_indY_ga _ _ _ rfl
      | unExpr o2 x => exact unify_indY_ga _ _ _ rfl
      | binExpr x o2 y => exact unify_indY_ga _ _ _ rfl
    exact c4_at3 h0 h1 h2 (unify_idx_succ a "x")
  · by_cases hy : s = "y"
    · subst hy
      cases a with
      | deref c => exact c4_at2 h0 h1 (unify_indY_succ c)
      | name n =>
        exact c4_at4 h0 h1 (unify_indY_ga _ _ _ rfl)
          (unify_idx_name _ "y" "x" (by decide)) (unify_idx_succ _ "y")
      | val v =>
        exact c4_at4 h0 h1 (unify_indY_ga _ _ _ rfl)
          (unify_idx_name _ "y" "x" (by decide)) (unify_idx_succ _ "y")
      | unExpr o2 x =>
        exact c4_at4 h0 h1 (unify_indY_ga _ _ _ rfl)
          (unify_idx_name _ "y" "x" (by decide)) (unify_idx_succ _ "y")
      | binExpr x o2 y =>
        exact c4_at4 h0 h1 (unify_indY_ga _ _ _ rfl)
          (unify_idx_name _ "y" "x" (by decide)) (unify_idx_succ _ "y")
    · have h2 : unify (exprToTerm (.deref (.binExpr a "+" (.name s))))
          Fmt.indY.pattern = some none := by
        cases a with
        | deref c => exact unify_indY_name c s hy
        | name n => exact unify_indY_ga _ _ _ rfl
        | val v => exact unify_indY_ga _ _ _ rfl
        | unExpr o2 x => exact unify_indY_ga _ _ _ rfl
        | binExpr x o2 y => exact unify_indY_ga _ _ _ rfl
      exact c4_at5 h0 h1 h2 (unify_idx_name a s "x" hx)
        (unify_idx_name a s "y" hy) (unify_dir_succ _)

/-- `[a op b]` with `op ≠ +` matches `DIR`. -/
theorem c4_bin_op (a b : Expr) (op : String) (hop : op ≠ "+") :
    C4Stmt (.deref (.binExpr a op b)) := by
  have h0 : unify (exprToTerm (.deref (.binExpr a op b)))
      Fmt.idxInd.pattern = some none :=
    unify_clash1 (.binExpr a op b) (.deref (.binExpr (.var "T") (.pstr "+")
      (.name (.pstr "x")))) rfl rfl
  have h1 : unify (exprToTerm (.deref (.binExpr a op b)))
      Fmt.ind.pattern = some none :=
    unify_clash1 (.binExpr a op b) (.deref (.var "T")) rfl rfl
  have h2 : unify (exprToTerm (.deref (.binExpr a op b)))
      Fmt.indY.pattern = some none := by
    cases a with
    | deref c => exact unify_indY_op c b op hop
    | name n => exact unify_indY_ga _ _ _ rfl
    | val v => exact unify_indY_ga _ _ _ rfl
    | unExpr o2 x => exact unify_indY_ga _ _ _ rfl
    | binExpr x o2 y => exact unify_indY_ga _ _ _ rfl
  exact c4_at5 h0 h1 h2 (unify_idx_op a b op "x" hop)
    (unify_idx_op a b op "y" hop) (unify_dir_succ _)

/-- `[a + b]` with a non-name right operand matches `DIR`. -/
theorem c4_bin_other (a b : Expr)
    (hbn : ∀ w, decomposePair (exprToTerm b) (.name (.pstr w)) = none) :
    C4Stmt (.deref (.binExpr a "+" b)) := by
  have h0 : unify (exprToTerm (.deref (.binExpr a "+" b)))
      Fmt.idxInd.pattern = some none :=
    unify_clash1 (.binExpr a "+" b) (.deref (.binExpr (.var "T") (.pstr "+")
      (.name (.pstr "x")))) rfl rfl
  have h1 : unify (exprToTerm (.deref (.binExpr a "+" b)))
      Fmt.ind.pattern = some none :=
    unify_clash1 (.binExpr a "+" b) (.deref (.var "T")) rfl rfl
  have h2 : unify (exprToTerm (.deref (.binExpr a "+" b)))
      Fmt.indY.pattern = some none := by
    cases a with
    | deref c => exact unify_indY_nonname c b (hbn "y")
    | name n => exact unify_indY_ga _ _ _ rfl
    | val v => exact unify_indY_ga _ _ _ rfl
    | unExpr o2 x => exact unify_indY_ga _ _ _ rfl
    | binExpr x o2 y => exact unify_indY_ga _ _ _ rfl
  exact c4_at5 h0 h1 h2 (unify_idx_nonname a b "x" (hbn "x"))
    (unify_idx_nonname a b "y" (hbn "y")) (unify_dir_succ _)

end Wes

/-- C4: for every argument expression of a single-argument 6502
addressing-mode-aware instruction, `Format.match` selects exactly one of
the seven templates - the first in the declaration order IDX_IND, IND,
IND_Y, IDX_X, IDX_Y, DIR, IMM whose unification with the argument
succeeds, binding `T` to the operand sub-expression - and every earlier
template fails its unification; `IMM` succeeds for every argument not
matched earlier. -/
theorem Wes.c4_first_template_match (e : Wes.Expr) :
    ∃ (i : Nat) (fmt : Wes.Fmt) (t : Wes.PTerm)
      (eqs : List (Wes.PTerm × Wes.PTerm)),
      Wes.fmtOrder[i]? = some fmt ∧
      Wes.unify (Wes.exprToTerm e) fmt.pattern = some (some eqs) ∧
      Wes.subsGet eqs (.var "T") = some t ∧
      Wes.formatMatch (Wes.exprToTerm e) = some (fmt, t) ∧
      ∀ f2 ∈ Wes.fmtOrder.take i,
        Wes.unify (Wes.exprToTerm e) f2.pattern = some none := by
  cases e with
  | name n => exact Wes.c4_imm_case _ (fun p => rfl)
  | val v => exact Wes.c4_imm_case _ (fun p => rfl)
  | unExpr op x => exact Wes.c4_imm_case _ (fun p => rfl)
  | binExpr x op y => exact Wes.c4_imm_case _ (fun p => rfl)
  | deref e1 =>
    cases e1 with
    | name n => exact Wes.c4_dir_case _ (fun q => rfl) (fun q r u => rfl)
    | val v => exact Wes.c4_dir_case _ (fun q => rfl) (fun q r u => rfl)
    | unExpr o x => exact Wes.c4_dir_case _ (fun q => rfl) (fun q r u => rfl)
    | binExpr a o b =>
      by_cases hop : o = "+"
      · subst hop
        cases b with
        | name s => exact Wes.c4_bin_name a s
        | val v => exact Wes.c4_bin_other a _ (fun w => rfl)
        | unExpr o2 x => exact Wes.c4_bin_other a _ (fun w => rfl)
        | binExpr x o2 y => exact Wes.c4_bin_other a _ (fun w => rfl)
        | deref d => exact Wes.c4_bin_other a _ (fun w => rfl)
      · exact Wes.c4_bin_op a b o hop
    | deref e2 =>
      cases e2 with
      | binExpr a o b => exact Wes.c4_dd_bin a b o
      | name n => exact Wes.c4_ind_case _ rfl
      | val v => exact Wes.c4_ind_case _ rfl
      | unExpr o x => exact Wes.c4_ind_case _ rfl
      | deref e3 => exact Wes.c4_ind_case _ rfl

